import Mathlib

/-!
googleAuthenticator: a shallow embedding of `src/auth.go`, `src/utils` and
`src/mian.go`

Go strings and byte slices are lists of bytes (`Bytes`, every element a natural
number below 256).  Go's `int` and `int64` are integers kept in the 64-bit
two's-complement range by `wrap64`; `int32` is kept in range by its producers.

Three things the program reads from its environment are explicit:

* the wall clock (`Clock`), a stream of readings of `time.Now().Unix()`, passed
  through every function that may read it;
* the secure random source, a state together with a `read` function;
* the library functions the program calls but does not define, gathered in
  `Platform`: the HMAC-SHA1 of `crypto/hmac` and `crypto/sha1`, the non-ASCII
  branch of `strings.ToUpper`, and the out-of-range float to `int32` conversion.

The theorems hold for every platform whose digests have 20 bytes; the tests run
on `refPlatform`, whose digest is the HMAC-SHA1 of RFC 2104 and FIPS 180-4.

`encoding/base32`, `strings.TrimRight`, the ASCII branch of `strings.ToUpper`,
`encoding/binary` and the `%06d` and `%s` verbs of `fmt` are embedded from the Go
standard library the program is linked with.  The QR, barcode, PNG and base64
packages behind `GenerateQRCode` are parameters (`QrLib`).  The loop of
`TimingSafeEquals` is embedded as its condition and its body over the loop
variables, run by `forLoop`, which counts the iterations.  `GetCode`,
`VerifyCode`, `base32Decode` and `timingSafeEquals` of `src/mian.go` are embedded
separately in the namespace `Mian`.
-/

namespace Totp

set_option maxRecDepth 100000

deriving instance DecidableEq for Except

/-- A Go `string` or `[]byte`: its bytes in order. -/
abbrev Bytes := List Nat

/-- The bytes of an ASCII literal. -/
def str (s : String) : Bytes := s.toList.map Char.toNat

/-! ## Machine integers -/

/-- Two's-complement wrap of an integer into the `int64` range. -/
def wrap64 (x : Int) : Int := (x + 2 ^ 63) % 2 ^ 64 - 2 ^ 63

/-- Two's-complement wrap of an integer into the `int32` range. -/
def wrap32 (x : Int) : Int := (x + 2 ^ 31) % 2 ^ 32 - 2 ^ 31

/-- Membership in the `int64` range. -/
def isInt64 (x : Int) : Prop := -2 ^ 63 ≤ x ∧ x < 2 ^ 63

instance (x : Int) : Decidable (isInt64 x) := by
  unfold isInt64; exact inferInstance

/-! ## `src/utils/lookup_table.go` -/

/-- `GetBase32LookupTable`: the 32 characters used to write a secret. -/
def GetBase32LookupTable : Bytes := str "ABCDEFGHIJKLMNOPQRSTUVWXYZ234567"

/-! ## `src/utils/timing_safe.go` -/

/-- The accumulator of the comparison loop as a recursion over the pairs of
bytes: `result |= int(a[i] ^ b[i])` for every index of `a`, the two strings
having the same length. -/
def xorFold : Nat → Bytes → Bytes → Nat
  | result, x :: a, y :: b => xorFold (result ||| (x ^^^ y)) a b
  | result, _, _ => result

/-- The variables of the loop of `TimingSafeEquals`: the index `i` and the
accumulator `result`. -/
structure EqVars where
  i : Nat
  result : Nat
deriving DecidableEq

/-- The condition of the loop of `TimingSafeEquals`: `i < len(a)`. -/
def eqCond (a : Bytes) (s : EqVars) : Bool := decide (s.i < a.length)

/-- One iteration of the loop of `TimingSafeEquals`: the body
`result |= int(a[i] ^ b[i])`, then the post statement `i++`. -/
def eqBody (a b : Bytes) (s : EqVars) : EqVars :=
  ⟨s.i + 1, s.result ||| (a.getD s.i 0 ^^^ b.getD s.i 0)⟩

/-- A Go loop `for ; cond; { body }` run from the variables `s`, with at most
`fuel` tests of the condition: the variables at the exit together with the
number of iterations performed (counted from `n`), or `none` when the condition
still holds after `fuel` tests. -/
def forLoop {σ : Type} (cond : σ → Bool) (body : σ → σ) : Nat → σ → Nat → Option (σ × Nat)
  | 0, _, _ => none
  | fuel + 1, s, n => if cond s then forLoop cond body fuel (body s) (n + 1) else some (s, n)

/-- The loop of `TimingSafeEquals` run from `result := 0` and `i := 0`: the
variables at its exit and the number of iterations it performed. The condition
is tested `len(a) + 1` times at most. -/
def eqRun (a b : Bytes) : Option (EqVars × Nat) :=
  forLoop (eqCond a) (eqBody a b) (a.length + 1) ⟨0, 0⟩ 0

/-- `TimingSafeEquals(a, b)`: false on different lengths, otherwise
`result == 0` after the loop. -/
def TimingSafeEquals (a b : Bytes) : Bool :=
  if a.length ≠ b.length then false
  else
    match eqRun a b with
    | some (s, _) => s.result == 0
    | none => false

/-! ## `strings.TrimRight` and `strings.ToUpper` -/

/-- `strings.TrimRight(s, "=")`: `s` without its trailing `=` bytes. -/
def TrimRight (s : Bytes) : Bytes := s.rdropWhile (fun c => c == 61)

/-- The ASCII branch of `strings.ToUpper`: `c -= 'a' - 'A'` for `'a' <= c <= 'z'`. -/
def upperByte (c : Nat) : Nat := if 97 ≤ c ∧ c ≤ 122 then c - 32 else c

/-- `strings.ToUpper(s)`: a string all of whose bytes are below `utf8.RuneSelf`
is mapped byte by byte; any other string goes through
`strings.Map(unicode.ToUpper, s)`, which is the parameter `unicodeUpper`. -/
def ToUpper (unicodeUpper : Bytes → Bytes) (s : Bytes) : Bytes :=
  if s.all (fun c => decide (c < 128)) then s.map upperByte else unicodeUpper s

/-! ## `encoding/base32`, `StdEncoding` (padding character `=`) -/

/-- The alphabet of `base32.StdEncoding`. -/
def encodeStd : Bytes := str "ABCDEFGHIJKLMNOPQRSTUVWXYZ234567"

/-- `enc.decodeMap[c]`: the index of `c` in the alphabet, `0xFF` for a byte
that is not in it. -/
def decodeMap (c : Nat) : Nat :=
  if encodeStd.indexOf c < 32 then encodeStd.indexOf c else 0xFF

/-- `stripNewlines`: the bytes other than `\r` and `\n`. -/
def stripNewlines (s : Bytes) : Bytes := s.filter (fun c => !(c == 13 || c == 10))

/-- The padding check `for k := 0; k < 8-1-j; k++`: the first `k` below the
bound, counted from `k`, with `len(src) > k` and `src[k] != '='`. -/
def badPad : Nat → Nat → Bytes → Option Nat
  | 0, _, _ => none
  | _ + 1, _, [] => none
  | n + 1, k, c :: src => if c ≠ 61 then some k else badPad n (k + 1) src

/-- What the inner loop of `decode` leaves: a `CorruptInputError`, or the
quantum buffer `dbuf`, its length `dlen`, the flag `end` and the unread input. -/
inductive Quantum where
  | corrupt (offset : Int)
  | done (dbuf : List Nat) (dlen : Nat) (fin : Bool) (src : Bytes)
  deriving DecidableEq, Repr

/-- The inner loop `for j := 0; j < 8; ` of `decode`, with `8 - j` iterations
left, on the input of original length `olen`. -/
def quantum (olen : Int) : Nat → Nat → List Nat → Bytes → Quantum
  | 0, _, dbuf, src => .done dbuf 8 false src
  | _ + 1, j, _, [] => .corrupt (olen - 0 - j)
  | n + 1, j, dbuf, c :: src =>
    if c = 61 ∧ 2 ≤ j ∧ src.length < 8 then
      if src.length + j < 8 - 1 then .corrupt olen
      else
        match badPad (8 - 1 - j) 0 src with
        | some k => .corrupt (olen - src.length + k - 1)
        | none =>
          if j = 1 ∨ j = 3 ∨ j = 6 then .corrupt (olen - src.length - 1)
          else .done dbuf j true src
    else if decodeMap c = 0xFF then .corrupt (olen - src.length - 1)
    else quantum olen n (j + 1) (dbuf ++ [decodeMap c]) src

/-- The `switch dlen` of `decode`: the bytes one quantum yields (byte
arithmetic, so every shift is taken modulo 256; `dbuf` is zero past `dlen`). -/
def pack (dbuf : List Nat) (dlen : Nat) : Bytes :=
  let d := fun i => dbuf.getD i 0
  let b0 := ((d 0 <<< 3) % 256) ||| (d 1 >>> 2)
  let b1 := ((d 1 <<< 6) % 256) ||| ((d 2 <<< 1) % 256) ||| (d 3 >>> 4)
  let b2 := ((d 3 <<< 4) % 256) ||| (d 4 >>> 1)
  let b3 := ((d 4 <<< 7) % 256) ||| ((d 5 <<< 2) % 256) ||| (d 6 >>> 3)
  let b4 := ((d 6 <<< 5) % 256) ||| d 7
  if dlen = 8 then [b0, b1, b2, b3, b4]
  else if dlen = 7 then [b0, b1, b2, b3]
  else if dlen = 5 then [b0, b1, b2]
  else if dlen = 4 then [b0, b1]
  else if dlen = 2 then [b0]
  else []

/-- The outer loop `for len(src) > 0 && !end` of `decode`. -/
def decodeLoop (olen : Int) : Nat → Bytes → Except Int Bytes
  | 0, _ => .ok []
  | fuel + 1, src =>
    if src = [] then .ok []
    else
      match quantum olen 8 0 [] src with
      | .corrupt e => .error e
      | .done dbuf dlen true _ => .ok (pack dbuf dlen)
      | .done dbuf dlen false rest =>
        match decodeLoop olen fuel rest with
        | .error e => .error e
        | .ok out => .ok (pack dbuf dlen ++ out)

/-- `base32.StdEncoding.DecodeString(s)`: newlines are dropped, then the
quanta are decoded; every quantum but the last reads 8 bytes, so
`len(s)` iterations are enough. -/
def DecodeString (s : Bytes) : Except Int Bytes :=
  let buf := stripNewlines s
  decodeLoop buf.length buf.length buf

/-! ## `src/utils/base32.go` -/

/-- `Base32Decode(secret)`. -/
def Base32Decode (unicodeUpper : Bytes → Bytes) (secret : Bytes) : Except Int Bytes :=
  match DecodeString (ToUpper unicodeUpper (TrimRight secret)) with
  | .error e => .error e
  | .ok decoded => .ok decoded

/-! ## `encoding/binary` -/

/-- `binary.BigEndian.PutUint64(b, v)`: `b[0] = byte(v >> 56)` down to
`b[7] = byte(v)`. -/
def PutUint64 (v : Nat) : Bytes :=
  [(v >>> 56) % 256, (v >>> 48) % 256, (v >>> 40) % 256, (v >>> 32) % 256,
   (v >>> 24) % 256, (v >>> 16) % 256, (v >>> 8) % 256, v % 256]

/-- `binary.BigEndian.Uint32(b)` on a slice of four bytes:
`uint32(b[3]) | uint32(b[2])<<8 | uint32(b[1])<<16 | uint32(b[0])<<24`. -/
def Uint32 (b : Bytes) : Nat :=
  b.getD 3 0 ||| (b.getD 2 0 <<< 8) ||| (b.getD 1 0 <<< 16) ||| (b.getD 0 0 <<< 24)

/-! ## `crypto/sha1` and `crypto/hmac` (FIPS 180-4, RFC 2104) -/

/-- Rotation of a 32-bit word to the left by `n` bits. -/
def rotl (n x : Nat) : Nat := ((x <<< n) ||| (x >>> (32 - n))) % 2 ^ 32

/-- The big-endian 32-bit word at the head of `b`. -/
def beWord (b : Bytes) : Nat :=
  (b.getD 0 0 <<< 24) ||| (b.getD 1 0 <<< 16) ||| (b.getD 2 0 <<< 8) ||| b.getD 3 0

/-- The four bytes of a 32-bit word, big-endian. -/
def wordBytes (w : Nat) : Bytes :=
  [(w >>> 24) % 256, (w >>> 16) % 256, (w >>> 8) % 256, w % 256]

/-- The padding of SHA-1: the byte `0x80`, zeros up to 56 bytes modulo 64,
and the length in bits as 8 big-endian bytes. -/
def sha1Pad (msg : Bytes) : Bytes :=
  let l := msg.length
  let t := if l % 64 < 56 then 56 - l % 64 else 64 + 56 - l % 64
  msg ++ [0x80] ++ List.replicate (t - 1) 0 ++ PutUint64 (l * 8 % 2 ^ 64)

/-- The message schedule, newest word first: `n` more words, each the
rotation by one bit of the exclusive or of the words 3, 8, 14 and 16 places
back. -/
def sha1Schedule : Nat → List Nat → List Nat
  | 0, w => w
  | n + 1, w =>
    sha1Schedule n (rotl 1 (w.getD 2 0 ^^^ w.getD 7 0 ^^^ w.getD 13 0 ^^^ w.getD 15 0) :: w)

/-- The five working words of SHA-1. -/
structure Sha1State where
  a : Nat
  b : Nat
  c : Nat
  d : Nat
  e : Nat
  deriving DecidableEq, Repr

/-- Round `i` of the compression function on the schedule word `w`. -/
def sha1Round (i : Nat) (s : Sha1State) (w : Nat) : Sha1State :=
  let f :=
    if i < 20 then (s.b &&& s.c) ||| ((s.b ^^^ 0xFFFFFFFF) &&& s.d)
    else if i < 40 then s.b ^^^ s.c ^^^ s.d
    else if i < 60 then (s.b &&& s.c) ||| (s.b &&& s.d) ||| (s.c &&& s.d)
    else s.b ^^^ s.c ^^^ s.d
  let k :=
    if i < 20 then 0x5A827999 else if i < 40 then 0x6ED9EBA1
    else if i < 60 then 0x8F1BBCDC else 0xCA62C1D6
  { a := (rotl 5 s.a + f + s.e + k + w) % 2 ^ 32, b := s.a, c := rotl 30 s.b,
    d := s.c, e := s.d }

/-- The rounds of the compression function over the schedule, from round `i`. -/
def sha1Rounds : Nat → List Nat → Sha1State → Sha1State
  | _, [], s => s
  | i, w :: ws, s => sha1Rounds (i + 1) ws (sha1Round i s w)

/-- The first `n` big-endian words of a block. -/
def blockWords : Nat → Bytes → List Nat
  | 0, _ => []
  | n + 1, b => beWord b :: blockWords n (b.drop 4)

/-- The compression of one 64-byte block into the chaining value `h`. -/
def sha1Block (h : Sha1State) (chunk : Bytes) : Sha1State :=
  let w := (sha1Schedule 64 (blockWords 16 chunk).reverse).reverse
  let s := sha1Rounds 0 w h
  { a := (h.a + s.a) % 2 ^ 32, b := (h.b + s.b) % 2 ^ 32, c := (h.c + s.c) % 2 ^ 32,
    d := (h.d + s.d) % 2 ^ 32, e := (h.e + s.e) % 2 ^ 32 }

/-- The compression of `n` successive blocks. -/
def sha1Blocks : Nat → Sha1State → Bytes → Sha1State
  | 0, h, _ => h
  | n + 1, h, b => sha1Blocks n (sha1Block h (b.take 64)) (b.drop 64)

/-- `sha1.Sum(msg)`: the 20-byte SHA-1 digest. -/
def sha1 (msg : Bytes) : Bytes :=
  let p := sha1Pad msg
  let h := sha1Blocks (p.length / 64)
    { a := 0x67452301, b := 0xEFCDAB89, c := 0x98BADCFE, d := 0x10325476, e := 0xC3D2E1F0 } p
  wordBytes h.a ++ wordBytes h.b ++ wordBytes h.c ++ wordBytes h.d ++ wordBytes h.e

/-- `hmac.New(sha1.New, key)`, `Write(msg)`, `Sum(nil)`: a key longer than the
64-byte block is hashed first, the key is padded with zeros to the block, and
the digest is `H(key ^ opad ++ H(key ^ ipad ++ msg))`. -/
def hmacSha1 (key msg : Bytes) : Bytes :=
  let k := if 64 < key.length then sha1 key else key
  let k := k ++ List.replicate (64 - k.length) 0
  sha1 (k.map (fun b => b ^^^ 0x5c) ++ sha1 (k.map (fun b => b ^^^ 0x36) ++ msg))

/-! ## `fmt.Sprintf("%06d", v)` -/

/-- The digit loop of `fmtInteger`, writing right to left in front of `buf`:
`for u >= 10 { next := u / 10; buf[i] = byte('0' + u - next*10); u = next }`
and then `buf[i] = digits[u]`. -/
def fmtDigits : Nat → Nat → Bytes → Bytes
  | 0, u, buf => (48 + u) :: buf
  | fuel + 1, u, buf =>
    if 10 ≤ u then fmtDigits fuel (u / 10) ((48 + u - (u / 10) * 10) :: buf)
    else (48 + u) :: buf

/-- `fmt.Sprintf("%06d", v)`: with the zero flag and width 6 the precision is
6, one less for a negative number; the digits are written, zeros are put in
front while the precision exceeds their number, then the sign. -/
def Sprintf06d (v : Int) : Bytes :=
  let negative := decide (v < 0)
  let u := v.natAbs
  let prec := if negative then 6 - 1 else 6
  let ds := fmtDigits u u []
  let padded := List.replicate (prec - ds.length) 48 ++ ds
  if negative then 45 :: padded else padded

/-! ## The environment -/

/-- The library functions the program calls and does not define. -/
structure Platform where
  /-- The HMAC-SHA1 digest: `hmac.New(sha1.New, key)`, `Write(msg)`, `Sum(nil)`. -/
  hmacSha1 : Bytes → Bytes → Bytes
  /-- The non-ASCII branch of `strings.ToUpper`. -/
  unicodeUpper : Bytes → Bytes
  /-- The `int32` that the conversion `int32(math.Pow10(n))` gives for
  `n >= 10`, where the value does not fit and Go leaves the result to the
  implementation. -/
  floatToInt32 : Int → Int

/-- `crypto/sha1` digests have 20 bytes. -/
def Platform.WellFormed (p : Platform) : Prop :=
  ∀ key msg, (p.hmacSha1 key msg).length = 20 ∧ ∀ b ∈ p.hmacSha1 key msg, b < 256

/-- The readings of `time.Now().Unix()` still to come, the next one first. -/
abbrev Clock := Nat → Int

/-- The clock after one reading. -/
def Clock.tail (clk : Clock) : Clock := fun n => clk (n + 1)

/-- What a Go function call comes to: a value with a nil error, a
`CorruptInputError`, or a run-time panic. -/
inductive Result (α : Type) where
  | ok (a : α)
  | err (e : Int)
  | panic
  deriving DecidableEq, Repr

/-! ## `src/auth.go` -/

/-- The struct `GoogleAuthenticator`. -/
structure GoogleAuthenticator where
  codeLength : Int
  deriving DecidableEq, Repr

/-- `NewGoogleAuthenticator(codeLength)`. -/
def NewGoogleAuthenticator (codeLength : Int) : GoogleAuthenticator :=
  { codeLength := codeLength }

/-- The two errors of `CreateSecret`. -/
inductive SecretError where
  | badSecretLength
  | noSourceOfSecureRandom
  deriving DecidableEq, Repr

/-- `CreateSecret(secretLength)` over a random source in state `s`:
`read n s` is the outcome of `rand.Read` on a buffer of `n` bytes (the bytes, or
nothing on an error) and the state it leaves. -/
def CreateSecret {σ : Type} (read : Nat → σ → Option Bytes × σ) (s : σ)
    (secretLength : Int) : Except SecretError Bytes × σ :=
  if secretLength < 16 ∨ secretLength > 128 then (.error .badSecretLength, s)
  else
    let validChars := GetBase32LookupTable
    match read secretLength.toNat s with
    | (none, s') => (.error .noSourceOfSecureRandom, s')
    | (some secret, s') => (.ok (secret.map (fun b => validChars.getD (b &&& 31) 0)), s')

/-- The line `modulo := int32(math.Pow10(ga.codeLength))`: `Pow10` of a
negative number is below 1 and truncates to 0; up to 9 the power fits. -/
def modulo (p : Platform) (codeLength : Int) : Int :=
  if codeLength < 0 then 0
  else if codeLength ≤ 9 then 10 ^ codeLength.toNat
  else wrap32 (p.floatToInt32 codeLength)

/-- The sentinel of `GetCode` and `VerifyCode`: a time slice of 0 is
replaced by `time.Now().Unix() / 30`, which reads the clock. -/
def orNow (clk : Clock) (timeSlice : Int) : Int × Clock :=
  if timeSlice = 0 then (Int.tdiv (clk 0) 30, clk.tail) else (timeSlice, clk)

/-- The line `offset := hmacHash[len(hmacHash)-1] & 0x0F`. -/
def dynOffset (hmacHash : Bytes) : Nat :=
  hmacHash.getD (hmacHash.length - 1) 0 &&& 0x0F

/-- The line `value := int32(binary.BigEndian.Uint32(hmacHash[offset:offset+4]) & 0x7FFFFFFF)`. -/
def truncValue (hmacHash : Bytes) : Int :=
  let offset := dynOffset hmacHash
  wrap32 ((Uint32 ((hmacHash.drop offset).take 4) &&& 0x7FFFFFFF : Nat) : Int)

/-- The lines of `GetCode` after the digest: the offset, the four bytes, the
mask, the remainder and the rendering.  Indexing an empty digest, slicing past
the end of the digest and a remainder by zero panic. -/
def truncate (p : Platform) (ga : GoogleAuthenticator) (hmacHash : Bytes) : Result Bytes :=
  if hmacHash.length = 0 then .panic
  else if hmacHash.length < dynOffset hmacHash + 4 then .panic
  else
    let value := truncValue hmacHash
    let m := modulo p ga.codeLength
    if m = 0 then .panic
    else .ok (Sprintf06d (Int.tmod value m))

/-- `GetCode(secret, timeSlice)`. -/
def GetCode (p : Platform) (ga : GoogleAuthenticator) (clk : Clock) (secret : Bytes)
    (timeSlice : Int) : Result Bytes × Clock :=
  let (timeSlice, clk) := orNow clk timeSlice
  match Base32Decode p.unicodeUpper secret with
  | .error e => (.err e, clk)
  | .ok secretKey =>
    let timeBytes := PutUint64 (timeSlice % 2 ^ 64).toNat
    let hmacHash := p.hmacSha1 secretKey timeBytes
    (truncate p ga hmacHash, clk)

/-- How a call of `VerifyCode` stands: it has returned, it has panicked, or
the loop has iterations left when the fuel is spent. -/
inductive Verdict where
  | returns (b : Bool)
  | panics
  | running
  deriving DecidableEq, Repr

/-- The loop `for i := -discrepancy; i <= discrepancy; i++` of `VerifyCode`,
from the given `i`, for at most `fuel` iterations. -/
def verifyLoop (p : Platform) (ga : GoogleAuthenticator) (secret code : Bytes)
    (discrepancy currentTimeSlice : Int) : Nat → Int → Clock → Verdict × Clock
  | 0, i, clk => if i ≤ discrepancy then (.running, clk) else (.returns false, clk)
  | fuel + 1, i, clk =>
    if i ≤ discrepancy then
      match GetCode p ga clk secret (wrap64 (currentTimeSlice + i)) with
      | (.panic, clk') => (.panics, clk')
      | (.err _, clk') =>
        verifyLoop p ga secret code discrepancy currentTimeSlice fuel (wrap64 (i + 1)) clk'
      | (.ok calculatedCode, clk') =>
        if TimingSafeEquals calculatedCode code then (.returns true, clk')
        else verifyLoop p ga secret code discrepancy currentTimeSlice fuel (wrap64 (i + 1)) clk'
    else (.returns false, clk)

/-- `VerifyCode(secret, code, discrepancy, currentTimeSlice)`, the loop being
given `fuel` iterations. -/
def VerifyCode (p : Platform) (ga : GoogleAuthenticator) (fuel : Nat) (clk : Clock)
    (secret code : Bytes) (discrepancy currentTimeSlice : Int) : Verdict × Clock :=
  if code.length ≠ 6 then (.returns false, clk)
  else
    let (currentTimeSlice, clk) := orNow clk currentTimeSlice
    verifyLoop p ga secret code discrepancy currentTimeSlice fuel (wrap64 (-discrepancy)) clk

/-! ## Test data -/

/-- The digest of RFC 4226 section 5.4. -/
def rfcDigest : Bytes :=
  [0x1f, 0x86, 0x98, 0x69, 0x0e, 0x02, 0xca, 0x16, 0x61, 0x85,
   0x50, 0xef, 0x7f, 0x19, 0xda, 0x8e, 0x94, 0x5b, 0x55, 0x5a]

/-- The platform of the tests: the HMAC-SHA1 above; the identity stands in
for the non-ASCII branch of `strings.ToUpper`, and `math.MinInt32` for the
out-of-range conversion (the amd64 result). -/
def refPlatform : Platform :=
  { hmacSha1 := hmacSha1, unicodeUpper := id, floatToInt32 := fun _ => -2 ^ 31 }

/-- The secret of RFC 4226 appendix D, `12345678901234567890`, in base32. -/
def rfcSecret : Bytes := str "GEZDGNBVGY3TQOJQGEZDGNBVGY3TQOJQ"

/-- The key of RFC 4226 appendix D. -/
def rfcKey : Bytes := str "12345678901234567890"

/-- A random source that fills any buffer with the bytes `0, 37, 74, ...`
(mod 256) and counts its reads. -/
def testRead (n : Nat) (s : Nat) : Option Bytes × Nat :=
  (some ((List.range n).map (fun i => i * 37 % 256)), s + 1)

/-- A random source that always fails. -/
def failRead (_ : Nat) (s : Nat) : Option Bytes × Nat := (none, s + 1)

/-! ## `src/auth.go`: the code of one counter, and `GenerateQRCode` -/

/-- The lines of `GetCode` after the sentinel, for the counter `counter`:
decode the secret, take the HMAC of the 8 counter bytes, truncate and render. -/
def codeAt (p : Platform) (ga : GoogleAuthenticator) (secret : Bytes) (counter : Int) :
    Result Bytes :=
  match Base32Decode p.unicodeUpper secret with
  | .error e => .err e
  | .ok secretKey => truncate p ga (p.hmacSha1 secretKey (PutUint64 (counter % 2 ^ 64).toNat))

/-- `fmt.Sprintf(format, args...)` for a format whose only verbs are `%s` and
whose arguments are strings: a byte other than `%` is copied, `%s` writes the
next argument as it is.  Anything else (another verb, a missing or an extra
argument) is outside this fragment and gives `none`. -/
def SprintfS : Bytes → List Bytes → Option Bytes
  | [], args => if args.isEmpty then some [] else none
  | c :: fmt, args =>
    if c = 37 then
      match fmt, args with
      | v :: fmt', a :: args' =>
        if v = 115 then (SprintfS fmt' args').map (fun r => a ++ r) else none
      | _, _ => none
    else (SprintfS fmt args).map (fun r => c :: r)

/-- The line `qrContent := fmt.Sprintf("otpauth://totp/%s?secret=%s", title, secret)`. -/
def qrContent (title secret : Bytes) : Bytes :=
  (SprintfS (str "otpauth://totp/%s?secret=%s") [title, secret]).getD []

/-- The packages `GenerateQRCode` calls: `qr.Encode(content, qr.L, qr.Auto)`,
`barcode.Scale(code, 250, 250)`, `png.Encode` and
`base64.StdEncoding.EncodeToString`, over a type of images. -/
structure QrLib (Img : Type) where
  qrEncode : Bytes → Except Bytes Img
  scale : Img → Except Bytes Img
  pngEncode : Img → Except Bytes Bytes
  base64 : Bytes → Bytes

/-- `GenerateQRCode(title, secret)`. -/
def GenerateQRCode {Img : Type} (lib : QrLib Img) (title secret : Bytes) :
    Except Bytes Bytes :=
  match lib.qrEncode (qrContent title secret) with
  | .error err => .error err
  | .ok qrCode =>
    match lib.scale qrCode with
    | .error err => .error err
    | .ok qrCode =>
      match lib.pngEncode qrCode with
      | .error err => .error err
      | .ok pngData => .ok (lib.base64 pngData)

/-- A QR library that hands the content back as the image. -/
def echoLib : QrLib Bytes :=
  { qrEncode := fun c => .ok c, scale := fun i => .ok i, pngEncode := fun i => .ok i,
    base64 := fun b => b }

/-! ## `src/mian.go` -/

namespace Mian

/-- `NewGoogleAuthenticator()` of `src/mian.go`: the code length is 6. -/
def NewGoogleAuthenticator : GoogleAuthenticator := { codeLength := 6 }

/-- `base32Decode(secret)` of `src/mian.go`. -/
def base32Decode (unicodeUpper : Bytes → Bytes) (secret : Bytes) : Except Int Bytes :=
  match DecodeString (ToUpper unicodeUpper (TrimRight secret)) with
  | .error e => .error e
  | .ok decoded => .ok decoded

/-- `timingSafeEquals(a, b)` of `src/mian.go`. -/
def timingSafeEquals (a b : Bytes) : Bool :=
  if a.length ≠ b.length then false
  else xorFold 0 a b == 0

/-- `GetCode(secret, timeSlice)` of `src/mian.go`; `.err e` stands for the
pair of the empty string and the error `e`. -/
def GetCode (p : Platform) (ga : GoogleAuthenticator) (clk : Clock) (secret : Bytes)
    (timeSlice : Int) : Result Bytes × Clock :=
  let (timeSlice, clk) := orNow clk timeSlice
  match base32Decode p.unicodeUpper secret with
  | .error e => (.err e, clk)
  | .ok secretKey =>
    let timeBytes := PutUint64 (timeSlice % 2 ^ 64).toNat
    let hmacHash := p.hmacSha1 secretKey timeBytes
    if hmacHash.length = 0 then (.panic, clk)
    else
      let offset := hmacHash.getD (hmacHash.length - 1) 0 &&& 0x0F
      if hmacHash.length < offset + 4 then (.panic, clk)
      else
        let value := wrap32 ((Uint32 ((hmacHash.drop offset).take 4) &&& 0x7FFFFFFF : Nat) : Int)
        let m := modulo p ga.codeLength
        if m = 0 then (.panic, clk)
        else (.ok (Sprintf06d (Int.tmod value m)), clk)

/-- The loop of `VerifyCode` of `src/mian.go`: the error of `GetCode` is
dropped and the string it returned with the error, the empty string, is
compared with the candidate. -/
def verifyLoop (p : Platform) (ga : GoogleAuthenticator) (secret code : Bytes)
    (discrepancy currentTimeSlice : Int) : Nat → Int → Clock → Verdict × Clock
  | 0, i, clk => if i ≤ discrepancy then (.running, clk) else (.returns false, clk)
  | fuel + 1, i, clk =>
    if i ≤ discrepancy then
      match GetCode p ga clk secret (wrap64 (currentTimeSlice + i)) with
      | (.panic, clk') => (.panics, clk')
      | (.err _, clk') =>
        if timingSafeEquals [] code then (.returns true, clk')
        else verifyLoop p ga secret code discrepancy currentTimeSlice fuel (wrap64 (i + 1)) clk'
      | (.ok calculatedCode, clk') =>
        if timingSafeEquals calculatedCode code then (.returns true, clk')
        else verifyLoop p ga secret code discrepancy currentTimeSlice fuel (wrap64 (i + 1)) clk'
    else (.returns false, clk)

/-- `VerifyCode(secret, code, discrepancy, currentTimeSlice)` of `src/mian.go`. -/
def VerifyCode (p : Platform) (ga : GoogleAuthenticator) (fuel : Nat) (clk : Clock)
    (secret code : Bytes) (discrepancy currentTimeSlice : Int) : Verdict × Clock :=
  if code.length ≠ 6 then (.returns false, clk)
  else
    let (currentTimeSlice, clk) := orNow clk currentTimeSlice
    verifyLoop p ga secret code discrepancy currentTimeSlice fuel (wrap64 (-discrepancy)) clk

end Mian

/-! ## The words of the specification: base32 -/

/-- Spec: a base32-alphabet character in either letter case. -/
def isBase32Char (c : Nat) : Prop :=
  (65 ≤ c ∧ c ≤ 90) ∨ (97 ≤ c ∧ c ≤ 122) ∨ (50 ≤ c ∧ c ≤ 55)

instance (c : Nat) : Decidable (isBase32Char c) := by
  unfold isBase32Char; exact inferInstance

/-- Spec: the 5-bit index of a character, `A=0 .. Z=25`, `2=26 .. 7=31`, in
either letter case. -/
def index32 (c : Nat) : Nat :=
  if 65 ≤ c ∧ c ≤ 90 then c - 65 else if 97 ≤ c ∧ c ≤ 122 then c - 97 else c - 24

/-- Spec: the `w` low bits of `x`, most significant first. -/
def bitsBE (w x : Nat) : List Nat :=
  (List.range w).map (fun i => x / 2 ^ (w - 1 - i) % 2)

/-! ## The words of the specification -/

/-- Spec: the 6-character zero-padded decimal rendering of `n`. -/
def decimal6 (n : Nat) : Bytes :=
  [48 + n / 100000 % 10, 48 + n / 10000 % 10, 48 + n / 1000 % 10,
   48 + n / 100 % 10, 48 + n / 10 % 10, 48 + n % 10]

/-- Spec: `t` as 8 big-endian bytes (two's complement for a negative `t`). -/
def bigEndian8 (t : Int) : Bytes :=
  (List.range 8).map (fun i => (t % 2 ^ 64).toNat / 256 ^ (7 - i) % 256)

/-- Spec: `offset = digest[19] & 0x0F`. -/
def specOffset (digest : Bytes) : Nat := digest.getD 19 0 &&& 0x0F

/-- Spec: `truncated = (digest[offset] & 0x7F) << 24 | digest[offset+1] << 16
| digest[offset+2] << 8 | digest[offset+3]`. -/
def specTruncated (digest : Bytes) : Nat :=
  let offset := specOffset digest
  ((digest.getD offset 0 &&& 0x7F) <<< 24) ||| (digest.getD (offset + 1) 0 <<< 16)
    ||| (digest.getD (offset + 2) 0 <<< 8) ||| digest.getD (offset + 3) 0

/-- An ASCII decimal digit. -/
def isDigit (c : Nat) : Prop := 48 ≤ c ∧ c ≤ 57

instance (c : Nat) : Decidable (isDigit c) := by
  unfold isDigit; exact inferInstance

/-! ## Lemmas: formatting -/

theorem fmtDigits_fuel (f1 : Nat) : ∀ (f2 u : Nat) (buf : Bytes),
    u < 10 ^ (f1 + 1) → u < 10 ^ (f2 + 1) → fmtDigits f1 u buf = fmtDigits f2 u buf := by
  induction f1 with
  | zero =>
    intro f2 u buf h1 _
    have hu : ¬ 10 ≤ u := by simpa using h1
    cases f2 with
    | zero => rfl
    | succ f2 => simp [fmtDigits, hu]
  | succ f1 ih =>
    intro f2 u buf h1 h2
    cases f2 with
    | zero =>
      have hu : ¬ 10 ≤ u := by simpa using h2
      simp [fmtDigits, hu]
    | succ f2 =>
      simp only [fmtDigits]
      split
      · apply ih
        · apply Nat.div_lt_of_lt_mul
          rw [pow_succ] at h1; omega
        · apply Nat.div_lt_of_lt_mul
          rw [pow_succ] at h2; omega
      · rfl

theorem lt_ten_pow_succ (u : Nat) : u < 10 ^ (u + 1) := by
  have h : u < 10 ^ u := Nat.lt_pow_self (by norm_num) u
  have h2 : 10 ^ u ≤ 10 ^ (u + 1) := Nat.pow_le_pow_right (by norm_num) (by omega)
  omega

theorem fmtDigits_six (n : Nat) (h : n < 1000000) :
    List.replicate (6 - (fmtDigits n n []).length) 48 ++ fmtDigits n n [] = decimal6 n := by
  rw [fmtDigits_fuel n 5 n [] (lt_ten_pow_succ n) (by norm_num; omega)]
  simp only [fmtDigits, decimal6]
  split_ifs <;> simp [List.replicate] <;> omega

theorem Sprintf06d_lt (n : Nat) (h : n < 1000000) : Sprintf06d (n : Int) = decimal6 n := by
  have hn : ¬ ((n : Int) < 0) := by omega
  simp only [Sprintf06d, hn, decide_False, Int.natAbs_ofNat]
  simpa using fmtDigits_six n h

theorem decimal6_length (n : Nat) : (decimal6 n).length = 6 := rfl

theorem decimal6_digits (n : Nat) : ∀ c ∈ decimal6 n, isDigit c := by
  intro c hc
  simp only [decimal6, List.mem_cons, List.mem_singleton, List.not_mem_nil, or_false] at hc
  unfold isDigit
  omega

/-! ## Lemmas: dynamic truncation -/

theorem or_eq_add (k x y : Nat) (hx : x % 2 ^ k = 0) (hy : y < 2 ^ k) : x ||| y = x + y := by
  have h := Nat.mul_add_lt_is_or hy (x / 2 ^ k)
  rw [Nat.mul_div_cancel' (Nat.dvd_of_mod_eq_zero hx)] at h
  exact h.symm

theorem uint32_mask (a b c d : Nat) (hb : b < 256) (hc : c < 256) (hd : d < 256) :
    (d ||| (c <<< 8) ||| (b <<< 16) ||| (a <<< 24)) &&& 0x7FFFFFFF
      = ((a &&& 0x7F) <<< 24) ||| (b <<< 16) ||| (c <<< 8) ||| d := by
  have e1 : (0x7FFFFFFF : Nat) = 2 ^ 31 - 1 := by norm_num
  have e2 : (0x7F : Nat) = 2 ^ 7 - 1 := by norm_num
  rw [e1, e2, Nat.and_pow_two_sub_one_eq_mod, Nat.and_pow_two_sub_one_eq_mod]
  simp only [Nat.shiftLeft_eq]
  have l1 : d ||| c * 2 ^ 8 = c * 2 ^ 8 + d := by
    rw [Nat.or_comm]; exact or_eq_add 8 _ _ (by omega) (by omega)
  have l2 : c * 2 ^ 8 + d ||| b * 2 ^ 16 = b * 2 ^ 16 + (c * 2 ^ 8 + d) := by
    rw [Nat.or_comm]; exact or_eq_add 16 _ _ (by omega) (by omega)
  have l3 : b * 2 ^ 16 + (c * 2 ^ 8 + d) ||| a * 2 ^ 24
      = a * 2 ^ 24 + (b * 2 ^ 16 + (c * 2 ^ 8 + d)) := by
    rw [Nat.or_comm]; exact or_eq_add 24 _ _ (by omega) (by omega)
  have r1 : a % 2 ^ 7 * 2 ^ 24 ||| b * 2 ^ 16 = a % 2 ^ 7 * 2 ^ 24 + b * 2 ^ 16 :=
    or_eq_add 24 _ _ (by omega) (by omega)
  have r2 : a % 2 ^ 7 * 2 ^ 24 + b * 2 ^ 16 ||| c * 2 ^ 8
      = a % 2 ^ 7 * 2 ^ 24 + b * 2 ^ 16 + c * 2 ^ 8 :=
    or_eq_add 16 _ _ (by omega) (by omega)
  have r3 : a % 2 ^ 7 * 2 ^ 24 + b * 2 ^ 16 + c * 2 ^ 8 ||| d
      = a % 2 ^ 7 * 2 ^ 24 + b * 2 ^ 16 + c * 2 ^ 8 + d :=
    or_eq_add 8 _ _ (by omega) (by omega)
  rw [l1, l2, l3, r1, r2, r3]
  omega

theorem wrap32_of_lt (x : Nat) (h : x < 2 ^ 31) : wrap32 (x : Int) = x := by
  unfold wrap32
  have h' : (x : Int) < 2 ^ 31 := by exact_mod_cast h
  omega

theorem mask_lt (x : Nat) : x &&& 0x7FFFFFFF < 2 ^ 31 := by
  have e1 : (0x7FFFFFFF : Nat) = 2 ^ 31 - 1 := by norm_num
  rw [e1, Nat.and_pow_two_sub_one_eq_mod]
  exact Nat.mod_lt _ (by norm_num)

theorem dynOffset_le (h : Bytes) : dynOffset h ≤ 15 := by
  unfold dynOffset
  exact Nat.and_le_right

theorem dynOffset_eq (h : Bytes) (hl : h.length = 20) : dynOffset h = specOffset h := by
  simp [dynOffset, specOffset, hl]

theorem getD_lt (h : Bytes) (hb : ∀ b ∈ h, b < 256) (i : Nat) : h.getD i 0 < 256 := by
  by_cases hi : i < h.length
  · rw [List.getD_eq_getElem h 0 hi]
    exact hb _ (List.getElem_mem hi)
  · rw [List.getD_eq_default h 0 (by omega)]
    norm_num

theorem truncValue_nat (h : Bytes) :
    truncValue h = ((Uint32 ((h.drop (dynOffset h)).take 4) &&& 0x7FFFFFFF : Nat) : Int) := by
  unfold truncValue
  exact wrap32_of_lt _ (mask_lt _)

theorem truncValue_eq (h : Bytes) (hl : h.length = 20) (hb : ∀ b ∈ h, b < 256) :
    truncValue h = (specTruncated h : Int) := by
  rw [truncValue_nat]
  congr 1
  simp only [specTruncated, ← dynOffset_eq h hl]
  have g : ∀ k, k < 4 → ((h.drop (dynOffset h)).take 4).getD k 0 = h.getD (dynOffset h + k) 0 := by
    intro k hk
    simp [List.getD_eq_getElem?_getD, List.getElem?_take, hk]
  unfold Uint32
  rw [g 3 (by norm_num), g 2 (by norm_num), g 1 (by norm_num), g 0 (by norm_num)]
  exact uint32_mask _ _ _ _ (getD_lt h hb _) (getD_lt h hb _) (getD_lt h hb _)

theorem truncValue_range (h : Bytes) : 0 ≤ truncValue h ∧ truncValue h < 2 ^ 31 := by
  rw [truncValue_nat]
  have := mask_lt (Uint32 ((h.drop (dynOffset h)).take 4))
  constructor
  · exact Int.natCast_nonneg _
  · exact_mod_cast this

/-! ## Lemmas: `GetCode` -/

theorem PutUint64_eq (t : Int) : PutUint64 (t % 2 ^ 64).toNat = bigEndian8 t := by
  simp [PutUint64, bigEndian8, List.range, List.range.loop, Nat.shiftRight_eq_div_pow]

theorem orNow_ne (clk : Clock) (t : Int) (ht : t ≠ 0) : orNow clk t = (t, clk) := by
  simp [orNow, ht]

theorem GetCode_ok (p : Platform) (ga : GoogleAuthenticator) (clk : Clock) (secret key : Bytes)
    (hkey : Base32Decode p.unicodeUpper secret = .ok key) (t : Int) :
    GetCode p ga clk secret t
      = (truncate p ga (p.hmacSha1 key (bigEndian8 (orNow clk t).1)), (orNow clk t).2) := by
  simp only [GetCode, hkey, PutUint64_eq]

theorem GetCode_err (p : Platform) (ga : GoogleAuthenticator) (clk : Clock) (secret : Bytes)
    (e : Int) (hkey : Base32Decode p.unicodeUpper secret = .error e) (t : Int) :
    GetCode p ga clk secret t = (.err e, (orNow clk t).2) := by
  simp only [GetCode, hkey]

theorem modulo_small (p : Platform) (cl : Int) (h0 : 0 ≤ cl) (h9 : cl ≤ 9) :
    modulo p cl = ((10 ^ cl.toNat : Nat) : Int) := by
  have h : ¬ cl < 0 := by omega
  simp [modulo, h, h9]

theorem truncate_ok (p : Platform) (cl : Int) (h0 : 0 ≤ cl) (h6 : cl ≤ 6) (h : Bytes)
    (hl : h.length = 20) :
    ∃ n : Nat, n < 1000000 ∧ Int.tmod (truncValue h) (modulo p cl) = n
      ∧ truncate p ⟨cl⟩ h = .ok (decimal6 n) := by
  have hm := modulo_small p cl h0 (by omega)
  have hpow : 10 ^ cl.toNat ≤ 10 ^ 6 := Nat.pow_le_pow_right (by norm_num) (by omega)
  have hpos : 0 < 10 ^ cl.toNat := Nat.pos_pow_of_pos _ (by norm_num)
  have hv := truncValue_nat h
  refine ⟨(Uint32 ((h.drop (dynOffset h)).take 4) &&& 0x7FFFFFFF) % 10 ^ cl.toNat, ?_, ?_, ?_⟩
  · have := Nat.mod_lt (Uint32 ((h.drop (dynOffset h)).take 4) &&& 0x7FFFFFFF) hpos
    omega
  · rw [hv, hm, ← Int.ofNat_tmod]
  · have ho := dynOffset_le h
    have h1 : ¬ h.length = 0 := by omega
    have h2 : ¬ h.length < dynOffset h + 4 := by omega
    have h3 : ¬ modulo p cl = 0 := by
      rw [hm]; exact_mod_cast hpos.ne'
    simp only [truncate, h1, h2, h3, if_false]
    rw [hv, hm, ← Int.ofNat_tmod, Sprintf06d_lt]
    have := Nat.mod_lt (Uint32 ((h.drop (dynOffset h)).take 4) &&& 0x7FFFFFFF) hpos
    omega

theorem truncate_six (p : Platform) (h : Bytes) (hl : h.length = 20)
    (hb : ∀ b ∈ h, b < 256) :
    truncate p (NewGoogleAuthenticator 6) h = .ok (decimal6 (specTruncated h % 10 ^ 6)) := by
  have ho := dynOffset_le h
  have h1 : ¬ h.length = 0 := by omega
  have h2 : ¬ h.length < dynOffset h + 4 := by omega
  have hm : modulo p 6 = ((10 ^ 6 : Nat) : Int) := by
    simpa using modulo_small p 6 (by norm_num) (by norm_num)
  have h3 : ¬ modulo p 6 = 0 := by rw [hm]; norm_num
  simp only [truncate, NewGoogleAuthenticator, h1, h2, h3, if_false]
  rw [truncValue_eq h hl hb, hm, ← Int.ofNat_tmod, Sprintf06d_lt]
  exact Nat.mod_lt _ (by norm_num)

theorem wordBytes_lt (w : Nat) : ∀ b ∈ wordBytes w, b < 256 := by
  intro b hb
  simp only [wordBytes, List.mem_cons, List.mem_singleton, List.not_mem_nil, or_false] at hb
  rcases hb with rfl | rfl | rfl | rfl <;> exact Nat.mod_lt _ (by norm_num)

theorem sha1_wf (msg : Bytes) : (sha1 msg).length = 20 ∧ ∀ b ∈ sha1 msg, b < 256 := by
  constructor
  · simp [sha1, wordBytes]
  · intro b hb
    simp only [sha1, List.mem_append] at hb
    rcases hb with (((hb | hb) | hb) | hb) | hb <;> exact wordBytes_lt _ b hb

theorem refPlatform_wf : refPlatform.WellFormed := fun _ _ => sha1_wf _

/-! ## C1 -/

/-- C1: with codeLength 6, an accepted secret and a nonzero time step `t`,
`GetCode` succeeds, reads no clock, and returns the 6-character zero-padded
decimal rendering of `truncated mod 10^6`, where `truncated` is taken from the
HMAC-SHA1 digest of `t` as 8 big-endian bytes under the decoded key, by the
formula of RFC 4226. -/
theorem getCode_rfc4226 (p : Platform) (hp : p.WellFormed) (clk : Clock)
    (secret key : Bytes) (hkey : Base32Decode p.unicodeUpper secret = .ok key)
    (t : Int) (ht : t ≠ 0) :
    GetCode p (NewGoogleAuthenticator 6) clk secret t
      = (.ok (decimal6 (specTruncated (p.hmacSha1 key (bigEndian8 t)) % 10 ^ 6)), clk) := by
  rw [GetCode_ok p _ clk secret key hkey t, orNow_ne clk t ht]
  rw [truncate_six p _ (hp key _).1 (hp key _).2]

/-- C1, at the secret and counter 1 of RFC 4226 appendix D (code `287082`),
and at the digest of RFC 4226 section 5.4: offset 10, truncated `0x50ef7f19`,
code `872921`. -/
theorem getCode_rfc4226_witness :
    refPlatform.WellFormed
      ∧ Base32Decode refPlatform.unicodeUpper rfcSecret
          = .ok rfcKey
      ∧ (1 : Int) ≠ 0
      ∧ GetCode refPlatform (NewGoogleAuthenticator 6) (fun _ => 0) rfcSecret 1
          = (.ok (decimal6 (specTruncated (refPlatform.hmacSha1 rfcKey (bigEndian8 1)) % 10 ^ 6)),
              fun _ => 0)
      ∧ (GetCode refPlatform (NewGoogleAuthenticator 6) (fun _ => 0) rfcSecret 1).1
          = .ok (str "287082")
      ∧ truncate refPlatform (NewGoogleAuthenticator 6) rfcDigest = .ok (str "872921")
      ∧ specOffset rfcDigest = 10
      ∧ specTruncated rfcDigest = 0x50ef7f19
      ∧ decimal6 (specTruncated rfcDigest % 10 ^ 6) = str "872921" :=
  ⟨refPlatform_wf, by decide, by decide,
    getCode_rfc4226 refPlatform refPlatform_wf (fun _ => 0) rfcSecret
      rfcKey (by decide) 1 (by decide),
    by decide, by decide, by decide, by decide, by decide⟩

/-! ## Lemmas: `TimingSafeEquals` -/

theorem or_eq_zero (x y : Nat) : x ||| y = 0 ↔ x = 0 ∧ y = 0 := by
  constructor
  · intro h
    have key : ∀ i, (x.testBit i || y.testBit i) = false := by
      intro i
      rw [← Nat.testBit_or, h]
      simp
    constructor <;> apply Nat.eq_of_testBit_eq <;> intro i <;> have := key i <;> simp_all
  · rintro ⟨rfl, rfl⟩
    rfl

theorem xorFold_eq_zero : ∀ (a b : Bytes) (r : Nat), a.length = b.length →
    (xorFold r a b = 0 ↔ r = 0 ∧ a = b)
  | [], [], r, _ => by simp [xorFold]
  | [], _ :: _, _, h => by simp at h
  | _ :: _, [], _, h => by simp at h
  | x :: a, y :: b, r, h => by
    have hl : a.length = b.length := by simpa using h
    rw [xorFold, xorFold_eq_zero a b _ hl, or_eq_zero, Nat.xor_eq_zero]
    constructor
    · rintro ⟨⟨h1, h2⟩, h3⟩
      exact ⟨h1, by rw [h2, h3]⟩
    · rintro ⟨h1, h2⟩
      injection h2 with h2 h3
      exact ⟨⟨h1, h2⟩, h3⟩

theorem forLoop_eq (a b : Bytes) (h : a.length = b.length) :
    ∀ (m k r n fuel : Nat), k + m = a.length → m < fuel →
      forLoop (eqCond a) (eqBody a b) fuel ⟨k, r⟩ n
        = some (⟨a.length, xorFold r (a.drop k) (b.drop k)⟩, n + m) := by
  intro m
  induction m with
  | zero =>
    intro k r n fuel hk hf
    obtain ⟨f, rfl⟩ : ∃ f, fuel = f + 1 := ⟨fuel - 1, by omega⟩
    have hk' : k = a.length := by omega
    subst hk'
    have hb : List.drop a.length b = [] := by rw [h]; exact List.drop_length b
    simp [forLoop, eqCond, hb, xorFold]
  | succ m ih =>
    intro k r n fuel hk hf
    obtain ⟨f, rfl⟩ : ∃ f, fuel = f + 1 := ⟨fuel - 1, by omega⟩
    have ha : k < a.length := by omega
    have hb : k < b.length := by omega
    have hc : eqCond a ⟨k, r⟩ = true := by simp [eqCond, ha]
    rw [forLoop, if_pos hc, eqBody, ih (k + 1) _ (n + 1) f (by omega) (by omega),
      List.drop_eq_getElem_cons ha, List.drop_eq_getElem_cons hb, xorFold,
      List.getD_eq_getElem a 0 ha, List.getD_eq_getElem b 0 hb]
    simp only [Option.some.injEq, Prod.mk.injEq, true_and]
    omega

theorem eqRun_eq (a b : Bytes) (h : a.length = b.length) :
    eqRun a b = some (⟨a.length, xorFold 0 a b⟩, a.length) := by
  have := forLoop_eq a b h a.length 0 0 0 (a.length + 1) (by omega) (by omega)
  simpa [eqRun] using this

theorem TimingSafeEquals_eq (a b : Bytes) :
    TimingSafeEquals a b = if a.length ≠ b.length then false else xorFold 0 a b == 0 := by
  unfold TimingSafeEquals
  by_cases hl : a.length = b.length
  · simp only [ne_eq, hl, not_true_eq_false, if_false, eqRun_eq a b hl]
  · simp only [ne_eq, hl, not_false_eq_true, if_true]

theorem xorFold_foldl : ∀ (a b : Bytes) (r : Nat),
    xorFold r a b = (List.zipWith (fun x y => x ^^^ y) a b).foldl (fun s v => s ||| v) r
  | [], _, r => by simp [xorFold]
  | _ :: _, [], r => by simp [xorFold]
  | x :: a, y :: b, r => by
    rw [xorFold, xorFold_foldl a b]
    rfl

theorem TimingSafeEquals_iff (a b : Bytes) : TimingSafeEquals a b = true ↔ a = b := by
  rw [TimingSafeEquals_eq]
  by_cases hl : a.length = b.length
  · simp [hl, xorFold_eq_zero a b 0 hl]
  · simp only [ne_eq, hl, not_false_eq_true, if_true]
    constructor
    · intro h; cases h
    · intro h; exact absurd (congrArg List.length h) hl

/-! ## Lemmas: `VerifyCode` -/

theorem wrap64_id (x : Int) (h : isInt64 x) : wrap64 x = x := by
  unfold isInt64 at h
  unfold wrap64
  omega

theorem GetCode_six (p : Platform) (hp : p.WellFormed) (clk : Clock) (secret : Bytes)
    (t : Int) :
    (∃ e, GetCode p (NewGoogleAuthenticator 6) clk secret t = (.err e, (orNow clk t).2))
      ∨ ∃ n : Nat, n < 1000000 ∧
          GetCode p (NewGoogleAuthenticator 6) clk secret t
            = (.ok (decimal6 n), (orNow clk t).2) := by
  cases hk : Base32Decode p.unicodeUpper secret with
  | error e => exact Or.inl ⟨e, GetCode_err p _ clk secret e hk t⟩
  | ok key =>
    right
    rw [GetCode_ok p _ clk secret key hk t]
    obtain ⟨n, hn, _, h⟩ := truncate_ok p 6 (by norm_num) (by norm_num) _ (hp key _).1
    exact ⟨n, hn, by rw [← h]; rfl⟩

theorem verifyLoop_zero (p : Platform) (ga : GoogleAuthenticator) (secret code : Bytes)
    (d cur i : Int) (clk : Clock) (h : d < i) :
    ∀ fuel, verifyLoop p ga secret code d cur fuel i clk = (.returns false, clk) := by
  intro fuel
  have h' : ¬ i ≤ d := by omega
  cases fuel <;> simp [verifyLoop, h']

theorem verifyLoop_err (p : Platform) (ga : GoogleAuthenticator) (secret code : Bytes)
    (d cur i : Int) (clk clk' : Clock) (fuel : Nat) (e : Int) (h : i ≤ d)
    (hg : GetCode p ga clk secret (wrap64 (cur + i)) = (.err e, clk')) :
    verifyLoop p ga secret code d cur (fuel + 1) i clk
      = verifyLoop p ga secret code d cur fuel (wrap64 (i + 1)) clk' := by
  simp [verifyLoop, h, hg]

theorem verifyLoop_hit (p : Platform) (ga : GoogleAuthenticator) (secret code : Bytes)
    (d cur i : Int) (clk clk' : Clock) (fuel : Nat) (h : i ≤ d)
    (hg : GetCode p ga clk secret (wrap64 (cur + i)) = (.ok code, clk')) :
    verifyLoop p ga secret code d cur (fuel + 1) i clk = (.returns true, clk') := by
  have := (TimingSafeEquals_iff code code).2 rfl
  simp [verifyLoop, h, hg, this]

theorem verifyLoop_miss (p : Platform) (ga : GoogleAuthenticator) (secret code c : Bytes)
    (d cur i : Int) (clk clk' : Clock) (fuel : Nat) (h : i ≤ d) (hc : c ≠ code)
    (hg : GetCode p ga clk secret (wrap64 (cur + i)) = (.ok c, clk')) :
    verifyLoop p ga secret code d cur (fuel + 1) i clk
      = verifyLoop p ga secret code d cur fuel (wrap64 (i + 1)) clk' := by
  have : TimingSafeEquals c code = false := by
    rw [← Bool.not_eq_true, TimingSafeEquals_iff]; exact hc
  simp [verifyLoop, h, hg, this]

theorem GetCode_clock (p : Platform) (ga : GoogleAuthenticator) (clk clk0 : Clock)
    (secret : Bytes) (t : Int) (ht : t ≠ 0) :
    GetCode p ga clk secret t = ((GetCode p ga clk0 secret t).1, clk) := by
  simp only [GetCode, orNow, ht, if_false]
  cases Base32Decode p.unicodeUpper secret <;> rfl

theorem verifyLoop_reaches (p : Platform) (hp : p.WellFormed) (secret code : Bytes)
    (d cur : Int) (hd0 : 0 ≤ d) (hcur : isInt64 cur)
    (hcode : ∀ clk, GetCode p (NewGoogleAuthenticator 6) clk secret cur = (.ok code, clk)) :
    ∀ n : Nat, (n : Int) < 2 ^ 63 → ∀ (fuel : Nat) (clk : Clock), n + 1 ≤ fuel →
      (verifyLoop p (NewGoogleAuthenticator 6) secret code d cur fuel (-(n : Int)) clk).1
        = .returns true := by
  intro n
  induction n with
  | zero =>
    intro _ fuel clk hf
    obtain ⟨f, rfl⟩ : ∃ f, fuel = f + 1 := ⟨fuel - 1, by omega⟩
    have hw : wrap64 (cur + -((0 : Nat) : Int)) = cur := by
      simpa using wrap64_id cur hcur
    rw [verifyLoop_hit p _ secret code d cur _ clk clk f (by simpa using hd0)
      (by rw [hw]; exact hcode clk)]
  | succ n ih =>
    intro hn fuel clk hf
    obtain ⟨f, rfl⟩ : ∃ f, fuel = f + 1 := ⟨fuel - 1, by omega⟩
    have hn' : (n : Int) < 2 ^ 63 := by push_cast at hn; omega
    have hi : -((n + 1 : Nat) : Int) ≤ d := by push_cast; omega
    have hw : wrap64 (-((n + 1 : Nat) : Int) + 1) = -(n : Int) := by
      have : -((n + 1 : Nat) : Int) + 1 = -(n : Int) := by push_cast; ring
      rw [this]
      apply wrap64_id
      unfold isInt64
      omega
    rcases GetCode_six p hp clk secret (wrap64 (cur + -((n + 1 : Nat) : Int)))
      with ⟨e, he⟩ | ⟨m, _, hm⟩
    · rw [verifyLoop_err p _ secret code d cur _ clk _ f e hi he, hw]
      exact ih hn' f _ (by omega)
    · by_cases hc : decimal6 m = code
      · rw [hc] at hm
        rw [verifyLoop_hit p _ secret code d cur _ clk _ f hi hm]
      · rw [verifyLoop_miss p _ secret code (decimal6 m) d cur _ clk _ f hi hc hm, hw]
        exact ih hn' f _ (by omega)

/-! ## C2 -/

/-- C2: generate-then-verify round trip.  With codeLength 6, a nonzero time
step `t` and a discrepancy `d >= 0`, a code that `GetCode(secret, t)` returns
is accepted by `VerifyCode(secret, code, d, t)`, whatever the clock reads during
either call; the loop returns within `d + 1` iterations. -/
theorem verifyCode_accepts_generated (p : Platform) (hp : p.WellFormed)
    (clk clk' : Clock) (secret code : Bytes) (t d : Int) (ht : t ≠ 0) (ht64 : isInt64 t)
    (hd0 : 0 ≤ d) (hd : d < 2 ^ 63)
    (hcode : (GetCode p (NewGoogleAuthenticator 6) clk secret t).1 = .ok code)
    (fuel : Nat) (hfuel : d + 1 ≤ fuel) :
    (VerifyCode p (NewGoogleAuthenticator 6) fuel clk' secret code d t).1 = .returns true := by
  have hall : ∀ c, GetCode p (NewGoogleAuthenticator 6) c secret t = (.ok code, c) := by
    intro c
    rw [GetCode_clock p _ c clk secret t ht, hcode]
  have hlen : code.length = 6 := by
    rcases GetCode_six p hp clk secret t with ⟨e, he⟩ | ⟨m, _, hm⟩
    · rw [he] at hcode; cases hcode
    · rw [hm] at hcode
      injection hcode with h
      rw [← h]; rfl
  have hneg : wrap64 (-d) = -((d.toNat : Nat) : Int) := by
    rw [Int.toNat_of_nonneg hd0]
    apply wrap64_id
    unfold isInt64
    omega
  simp only [VerifyCode, hlen, ne_eq, not_true_eq_false, if_false, orNow_ne clk' t ht, hneg]
  apply verifyLoop_reaches p hp secret code d t hd0 ht64 hall
  · rw [Int.toNat_of_nonneg hd0]; exact hd
  · omega

/-- C2, at the secret of RFC 4226 appendix D: the code generated for time
step 5 is accepted with discrepancy 1. -/
theorem verifyCode_accepts_generated_witness :
    refPlatform.WellFormed ∧ (5 : Int) ≠ 0 ∧ isInt64 5 ∧ (0 : Int) ≤ 1 ∧ (1 : Int) < 2 ^ 63
      ∧ (GetCode refPlatform (NewGoogleAuthenticator 6) (fun _ => 0)
            rfcSecret 5).1 = .ok (str "254676")
      ∧ ((1 : Int) + 1 ≤ (2 : Nat))
      ∧ (VerifyCode refPlatform (NewGoogleAuthenticator 6) 2 (fun _ => 1700000000)
            rfcSecret (str "254676") 1 5).1 = .returns true :=
  ⟨refPlatform_wf, by decide, by decide, by decide, by decide, by decide, by decide,
    verifyCode_accepts_generated refPlatform refPlatform_wf (fun _ => 0) (fun _ => 1700000000)
      rfcSecret (str "254676") 5 1 (by decide) (by decide) (by decide)
      (by decide) (by decide) 2 (by decide)⟩

theorem orNow_const (now t : Int) : (orNow (fun _ => now) t).2 = fun _ => now := by
  unfold orNow
  split <;> rfl

theorem verifyLoop_scan (p : Platform) (hp : p.WellFormed) (now : Int) (secret code : Bytes)
    (d cur : Int) (hd : d < 2 ^ 63 - 1) :
    ∀ (fuel : Nat) (i : Int), -2 ^ 63 ≤ i → d + 1 - i ≤ fuel →
      ((verifyLoop p (NewGoogleAuthenticator 6) secret code d cur fuel i (fun _ => now)).1
          = .returns true
        ∧ ∃ j : Int, i ≤ j ∧ j ≤ d ∧
            (GetCode p (NewGoogleAuthenticator 6) (fun _ => now) secret (wrap64 (cur + j))).1
              = .ok code)
      ∨ ((verifyLoop p (NewGoogleAuthenticator 6) secret code d cur fuel i (fun _ => now)).1
          = .returns false
        ∧ ¬ ∃ j : Int, i ≤ j ∧ j ≤ d ∧
            (GetCode p (NewGoogleAuthenticator 6) (fun _ => now) secret (wrap64 (cur + j))).1
              = .ok code) := by
  intro fuel
  induction fuel with
  | zero =>
    intro i _ hf
    right
    refine ⟨by rw [verifyLoop_zero p _ secret code d cur i _ (by omega)], ?_⟩
    rintro ⟨j, h1, h2, _⟩
    omega
  | succ f ih =>
    intro i hi hf
    by_cases h : i ≤ d
    · have hw : wrap64 (i + 1) = i + 1 := by
        apply wrap64_id
        unfold isInt64
        omega
      have hrec := ih (i + 1) (by omega) (by push_cast at hf; omega)
      have hstep : ∀ c : Result Bytes,
          (GetCode p (NewGoogleAuthenticator 6) (fun _ => now) secret (wrap64 (cur + i))).1 = c →
          c ≠ .ok code →
          verifyLoop p (NewGoogleAuthenticator 6) secret code d cur (f + 1) i (fun _ => now)
            = verifyLoop p (NewGoogleAuthenticator 6) secret code d cur f (i + 1)
                (fun _ => now) →
          ((verifyLoop p (NewGoogleAuthenticator 6) secret code d cur (f + 1) i
                (fun _ => now)).1 = .returns true
            ∧ ∃ j : Int, i ≤ j ∧ j ≤ d ∧
                (GetCode p (NewGoogleAuthenticator 6) (fun _ => now) secret
                  (wrap64 (cur + j))).1 = .ok code)
          ∨ ((verifyLoop p (NewGoogleAuthenticator 6) secret code d cur (f + 1) i
                (fun _ => now)).1 = .returns false
            ∧ ¬ ∃ j : Int, i ≤ j ∧ j ≤ d ∧
                (GetCode p (NewGoogleAuthenticator 6) (fun _ => now) secret
                  (wrap64 (cur + j))).1 = .ok code) := by
        intro c hc hne heq
        rw [heq]
        rcases hrec with ⟨h1, j, hj1, hj2, hj3⟩ | ⟨h1, h2⟩
        · exact Or.inl ⟨h1, j, by omega, hj2, hj3⟩
        · refine Or.inr ⟨h1, ?_⟩
          rintro ⟨j, hj1, hj2, hj3⟩
          by_cases hji : j = i
          · subst hji
            rw [hc] at hj3
            exact hne hj3
          · exact h2 ⟨j, by omega, hj2, hj3⟩
      rcases GetCode_six p hp (fun _ => now) secret (wrap64 (cur + i))
        with ⟨e, he⟩ | ⟨m, _, hm⟩
      · rw [orNow_const] at he
        apply hstep (.err e) (by rw [he]) (by intro hx; cases hx)
        rw [verifyLoop_err p _ secret code d cur i _ _ f e h he, hw]
      · rw [orNow_const] at hm
        by_cases hc : decimal6 m = code
        · left
          rw [hc] at hm
          refine ⟨by rw [verifyLoop_hit p _ secret code d cur i _ _ f h hm], i, le_refl _, h, ?_⟩
          rw [hm]
        · apply hstep (.ok (decimal6 m)) (by rw [hm])
            (by intro hx; injection hx with hx; exact hc hx)
          rw [verifyLoop_miss p _ secret code (decimal6 m) d cur i _ _ f h hc hm, hw]
    · right
      refine ⟨by rw [verifyLoop_zero p _ secret code d cur i _ (by omega)], ?_⟩
      rintro ⟨j, h1, h2, _⟩
      omega

/-! ## C3 -/

/-- C3, amended: with codeLength 6 and the clock held at `now`, for every
secret, candidate code and time step `t`, and every discrepancy `d` with
`-2^63 < d < 2^63 - 1` (so that neither `-d` nor `i++` wraps), `VerifyCode`
returns within `2d + 1` iterations, and returns true if and only if some integer
`i` with `-d <= i <= d` has `GetCode(secret, t' + i)` return exactly `code`,
the sum being an `int64`; `t'` is `t` when `t != 0` and `now / 30` otherwise. -/
theorem verifyCode_window (p : Platform) (hp : p.WellFormed) (now : Int)
    (secret code : Bytes) (d t : Int) (hd1 : -2 ^ 63 < d) (hd2 : d < 2 ^ 63 - 1)
    (fuel : Nat) (hfuel : 2 * d + 1 ≤ fuel) :
    ((VerifyCode p (NewGoogleAuthenticator 6) fuel (fun _ => now) secret code d t).1
        = .returns true
      ∧ ∃ i : Int, -d ≤ i ∧ i ≤ d ∧
          (GetCode p (NewGoogleAuthenticator 6) (fun _ => now) secret
            (wrap64 ((if t = 0 then Int.tdiv now 30 else t) + i))).1 = .ok code)
    ∨ ((VerifyCode p (NewGoogleAuthenticator 6) fuel (fun _ => now) secret code d t).1
        = .returns false
      ∧ ¬ ∃ i : Int, -d ≤ i ∧ i ≤ d ∧
          (GetCode p (NewGoogleAuthenticator 6) (fun _ => now) secret
            (wrap64 ((if t = 0 then Int.tdiv now 30 else t) + i))).1 = .ok code) := by
  by_cases hlen : code.length = 6
  · have hneg : wrap64 (-d) = -d := by
      apply wrap64_id
      unfold isInt64
      omega
    have ht' : orNow (fun _ => now) t
        = (if t = 0 then Int.tdiv now 30 else t, fun _ => now) := by
      unfold orNow
      split <;> rfl
    simp only [VerifyCode, hlen, ne_eq, not_true_eq_false, if_false, ht', hneg]
    exact verifyLoop_scan p hp now secret code d _ hd2 fuel (-d) (by omega) (by omega)
  · right
    refine ⟨by simp [VerifyCode, hlen], ?_⟩
    rintro ⟨i, _, _, hi⟩
    rcases GetCode_six p hp (fun _ => now) secret
        (wrap64 ((if t = 0 then Int.tdiv now 30 else t) + i)) with ⟨e, he⟩ | ⟨m, _, hm⟩
    · rw [he] at hi; cases hi
    · rw [hm] at hi
      injection hi with hi
      exact hlen (by rw [← hi]; rfl)

/-- C3, amended, at the secret of RFC 4226 appendix D with `d = 1` and `t = 5`:
the code of counter 4 is accepted, the code of counter 7 is not. -/
theorem verifyCode_window_witness :
    refPlatform.WellFormed ∧ (-2 ^ 63 : Int) < 1 ∧ (1 : Int) < 2 ^ 63 - 1
      ∧ (2 * (1 : Int) + 1 ≤ (3 : Nat))
      ∧ (VerifyCode refPlatform (NewGoogleAuthenticator 6) 3 (fun _ => 0)
            rfcSecret (str "338314") 1 5).1 = .returns true
      ∧ (VerifyCode refPlatform (NewGoogleAuthenticator 6) 3 (fun _ => 0)
            rfcSecret (str "162583") 1 5).1 = .returns false
      ∧ (((VerifyCode refPlatform (NewGoogleAuthenticator 6) 3 (fun _ => 0)
              rfcSecret (str "338314") 1 5).1 = .returns true
          ∧ ∃ i : Int, -1 ≤ i ∧ i ≤ 1 ∧
              (GetCode refPlatform (NewGoogleAuthenticator 6) (fun _ => 0)
                rfcSecret
                (wrap64 ((if (5 : Int) = 0 then Int.tdiv 0 30 else 5) + i))).1
                  = .ok (str "338314"))
        ∨ ((VerifyCode refPlatform (NewGoogleAuthenticator 6) 3 (fun _ => 0)
              rfcSecret (str "338314") 1 5).1 = .returns false
          ∧ ¬ ∃ i : Int, -1 ≤ i ∧ i ≤ 1 ∧
              (GetCode refPlatform (NewGoogleAuthenticator 6) (fun _ => 0)
                rfcSecret
                (wrap64 ((if (5 : Int) = 0 then Int.tdiv 0 30 else 5) + i))).1
                  = .ok (str "338314"))) :=
  ⟨refPlatform_wf, by decide, by decide, by decide, by decide, by decide,
    verifyCode_window refPlatform refPlatform_wf 0 rfcSecret (str "338314")
      1 5 (by decide) (by decide) 3 (by decide)⟩

/-- C3 as stated fails at `d = -2^63`: the negation wraps, the loop runs once
with `i = -2^63` and accepts a code, and no integer lies in the window. -/
theorem verifyCode_window_counterexample :
    (VerifyCode refPlatform (NewGoogleAuthenticator 6) 1 (fun _ => 0)
        rfcSecret (str "988412") (-2 ^ 63) 5).1 = .returns true
      ∧ ¬ ∃ i : Int, -(-2 ^ 63 : Int) ≤ i ∧ i ≤ -2 ^ 63 ∧
          (GetCode refPlatform (NewGoogleAuthenticator 6) (fun _ => 0)
            rfcSecret (5 + i)).1 = .ok (str "988412") := by
  refine ⟨by decide, ?_⟩
  rintro ⟨i, h1, h2, _⟩
  omega

/-! ## C4 -/

/-- C4: whatever the platform (so whatever the HMAC), the configured
codeLength, the secret, the discrepancy, the time step, the clock and the
iterations allowed, `VerifyCode` returns false for a candidate code whose length
is not 6, and leaves the clock unread. -/
theorem verifyCode_rejects_length (p : Platform) (ga : GoogleAuthenticator) (fuel : Nat)
    (clk : Clock) (secret code : Bytes) (d t : Int) (h : code.length ≠ 6) :
    VerifyCode p ga fuel clk secret code d t = (.returns false, clk) := by
  simp [VerifyCode, h]

/-- C4, at a 5-character code, with codeLength -1 (where `GetCode` would
panic), time step 0 (where it would read the clock) and no iteration allowed. -/
theorem verifyCode_rejects_length_witness :
    (str "12345").length ≠ 6
      ∧ VerifyCode refPlatform (NewGoogleAuthenticator (-1)) 0 (fun n : Nat => (n : Int))
          rfcSecret (str "12345") (2 ^ 63 - 1) 0
        = (.returns false, fun n : Nat => (n : Int)) :=
  ⟨by decide, verifyCode_rejects_length refPlatform (NewGoogleAuthenticator (-1)) 0
    (fun n : Nat => (n : Int)) rfcSecret (str "12345") (2 ^ 63 - 1) 0 (by decide)⟩

/-! ## C5 -/

/-- C5, amended: for every configured codeLength from 0 to 6, every accepted
secret and every time step, `GetCode` returns a string of exactly 6 characters,
all ASCII digits. -/
theorem getCode_length_upto_six (p : Platform) (hp : p.WellFormed) (cl : Int)
    (h0 : 0 ≤ cl) (h6 : cl ≤ 6) (clk : Clock) (secret key : Bytes)
    (hkey : Base32Decode p.unicodeUpper secret = .ok key) (t : Int) :
    ∃ code, GetCode p (NewGoogleAuthenticator cl) clk secret t = (.ok code, (orNow clk t).2)
      ∧ code.length = 6 ∧ ∀ c ∈ code, isDigit c := by
  obtain ⟨n, _, _, h⟩ := truncate_ok p cl h0 h6 _ (hp key (bigEndian8 (orNow clk t).1)).1
  refine ⟨decimal6 n, ?_, decimal6_length n, decimal6_digits n⟩
  rw [GetCode_ok p _ clk secret key hkey t]
  exact congrArg (fun r => (r, (orNow clk t).2)) h

/-- C5, amended, at codeLength 3 and the secret of RFC 4226 appendix D. -/
theorem getCode_length_upto_six_witness :
    refPlatform.WellFormed ∧ (0 : Int) ≤ 3 ∧ (3 : Int) ≤ 6
      ∧ Base32Decode refPlatform.unicodeUpper rfcSecret
          = .ok rfcKey
      ∧ ∃ code, GetCode refPlatform (NewGoogleAuthenticator 3) (fun _ => 0)
            rfcSecret 1 = (.ok code, (orNow (fun _ => 0) 1).2)
          ∧ code.length = 6 ∧ ∀ c ∈ code, isDigit c :=
  ⟨refPlatform_wf, by decide, by decide, by decide,
    getCode_length_upto_six refPlatform refPlatform_wf 3 (by decide) (by decide) (fun _ => 0)
      rfcSecret rfcKey
      (by decide) 1⟩

/-- C5 as stated fails at codeLength 7: for the secret and counter 1 of
RFC 4226 appendix D, where codeLength 6 gives `287082`, `GetCode` returns the 7
characters `4287082`. -/
theorem getCode_length_counterexample :
    Base32Decode refPlatform.unicodeUpper rfcSecret
        = .ok rfcKey
      ∧ (GetCode refPlatform (NewGoogleAuthenticator 7) (fun _ => 0)
          rfcSecret 1).1 = .ok (str "4287082")
      ∧ (str "4287082").length = 7 := by
  decide

/-! ## C6 -/

/-- C6: with codeLength 6, for every accepted secret, time step and clock,
the value taken from the digest is non-negative as an `int32`, its remainder by
`10^6` lies in `[0, 999999]`, and `GetCode` returns the `%06d` rendering of that
remainder, which is the 6-digit string of a number up to 999999: exactly 6
ASCII digits, no sign. -/
theorem getCode_six_ascii_digits (p : Platform) (hp : p.WellFormed) (clk : Clock)
    (secret key : Bytes) (hkey : Base32Decode p.unicodeUpper secret = .ok key) (t : Int) :
    0 ≤ truncValue (p.hmacSha1 key (bigEndian8 (orNow clk t).1))
      ∧ truncValue (p.hmacSha1 key (bigEndian8 (orNow clk t).1)) < 2 ^ 31
      ∧ modulo p 6 = 10 ^ 6
      ∧ ∃ n : Nat, n ≤ 999999
          ∧ Int.tmod (truncValue (p.hmacSha1 key (bigEndian8 (orNow clk t).1))) (modulo p 6) = n
          ∧ GetCode p (NewGoogleAuthenticator 6) clk secret t
              = (.ok (Sprintf06d n), (orNow clk t).2)
          ∧ Sprintf06d n = decimal6 n
          ∧ (Sprintf06d n).length = 6
          ∧ (∀ c ∈ Sprintf06d n, isDigit c)
          ∧ 45 ∉ Sprintf06d n := by
  obtain ⟨n, hn, hmod, h⟩ :=
    truncate_ok p 6 (by norm_num) (by norm_num) _ (hp key (bigEndian8 (orNow clk t).1)).1
  have hs := Sprintf06d_lt n hn
  refine ⟨(truncValue_range _).1, (truncValue_range _).2, ?_, n, by omega, hmod, ?_, hs, ?_, ?_, ?_⟩
  · simpa using modulo_small p 6 (by norm_num) (by norm_num)
  · rw [GetCode_ok p _ clk secret key hkey t, hs]
    exact congrArg (fun r => (r, (orNow clk t).2)) h
  · rw [hs]; rfl
  · rw [hs]; exact decimal6_digits n
  · rw [hs]
    intro hmem
    have := decimal6_digits n 45 hmem
    unfold isDigit at this
    omega

/-- C6, at the secret of RFC 4226 appendix D with the time step taken from the
clock at 1700000000. -/
theorem getCode_six_ascii_digits_witness :
    refPlatform.WellFormed
      ∧ Base32Decode refPlatform.unicodeUpper rfcSecret
          = .ok rfcKey
      ∧ (GetCode refPlatform (NewGoogleAuthenticator 6) (fun _ => 1700000000)
          rfcSecret 0).1 = .ok (str "921300")
      ∧ (0 ≤ truncValue (refPlatform.hmacSha1
              rfcKey
              (bigEndian8 (orNow (fun _ => 1700000000) 0).1))
        ∧ truncValue (refPlatform.hmacSha1
              rfcKey
              (bigEndian8 (orNow (fun _ => 1700000000) 0).1)) < 2 ^ 31
        ∧ modulo refPlatform 6 = 10 ^ 6
        ∧ ∃ n : Nat, n ≤ 999999
            ∧ Int.tmod (truncValue (refPlatform.hmacSha1
                rfcKey
                (bigEndian8 (orNow (fun _ => 1700000000) 0).1))) (modulo refPlatform 6) = n
            ∧ GetCode refPlatform (NewGoogleAuthenticator 6) (fun _ => 1700000000)
                rfcSecret 0
                = (.ok (Sprintf06d n), (orNow (fun _ => 1700000000) 0).2)
            ∧ Sprintf06d n = decimal6 n
            ∧ (Sprintf06d n).length = 6
            ∧ (∀ c ∈ Sprintf06d n, isDigit c)
            ∧ 45 ∉ Sprintf06d n) :=
  ⟨refPlatform_wf, by decide, by decide,
    getCode_six_ascii_digits refPlatform refPlatform_wf (fun _ => 1700000000)
      rfcSecret rfcKey
      (by decide) 0⟩

/-! ## Lemmas: `CreateSecret` -/

theorem lookup_range : ∀ k, k < 32 →
    (65 ≤ GetBase32LookupTable.getD k 0 ∧ GetBase32LookupTable.getD k 0 ≤ 90)
      ∨ (50 ≤ GetBase32LookupTable.getD k 0 ∧ GetBase32LookupTable.getD k 0 ≤ 55) := by
  decide

theorem lookup_mem : ∀ k, k < 32 → GetBase32LookupTable.getD k 0 ∈ encodeStd := by
  decide

theorem and_31_lt (b : Nat) : b &&& 31 < 32 := by
  have : b &&& 31 ≤ 31 := Nat.and_le_right
  omega

theorem CreateSecret_ok {σ : Type} (read : Nat → σ → Option Bytes × σ) (s s' : σ)
    (L : Int) (x : Bytes) (h1 : 16 ≤ L) (h2 : L ≤ 128)
    (hread : read L.toNat s = (some x, s')) :
    CreateSecret read s L
      = (.ok (x.map (fun b => GetBase32LookupTable.getD (b &&& 31) 0)), s') := by
  have h : ¬ (L < 16 ∨ L > 128) := by omega
  simp only [CreateSecret, h, if_false, hread]

/-! ## C7 -/

/-- C7: `CreateSecret(length)` returns an error exactly when `length < 16`, or
`length > 128`, or the random source fails; the length is out of range exactly
when it returns "bad secret length" with the random source left untouched; so
15 and 129 fail, and 16 and 128 succeed exactly when the random source does. -/
theorem createSecret_error_iff {σ : Type} (read : Nat → σ → Option Bytes × σ) (s : σ)
    (L : Int) :
    ((∃ e, (CreateSecret read s L).1 = .error e)
        ↔ (L < 16 ∨ L > 128 ∨ (read L.toNat s).1 = none))
      ∧ ((L < 16 ∨ L > 128) ↔ CreateSecret read s L = (.error .badSecretLength, s))
      ∧ CreateSecret read s 15 = (.error .badSecretLength, s)
      ∧ CreateSecret read s 129 = (.error .badSecretLength, s)
      ∧ ((∃ out, (CreateSecret read s 16).1 = .ok out) ↔ ∃ x, (read 16 s).1 = some x)
      ∧ ((∃ out, (CreateSecret read s 128).1 = .ok out) ↔ ∃ x, (read 128 s).1 = some x) := by
  refine ⟨?_, ?_, ?_, ?_, ?_, ?_⟩
  · by_cases h : L < 16 ∨ L > 128
    · have : L < 16 ∨ L > 128 ∨ (read L.toNat s).1 = none := by tauto
      simp [CreateSecret, h, this]
    · rcases hr : read L.toNat s with ⟨_ | x, s'⟩
      · have : L < 16 ∨ L > 128 ∨ (none : Option Bytes) = none := Or.inr (Or.inr rfl)
        simp [CreateSecret, h, hr]
      · have h1 : ¬ L < 16 := by tauto
        have h2 : ¬ L > 128 := by tauto
        simp [CreateSecret, h, hr, h1, h2]
  · by_cases h : L < 16 ∨ L > 128
    · simp [CreateSecret, h]
    · rcases hr : read L.toNat s with ⟨_ | x, s'⟩ <;> simp [CreateSecret, h, hr]
  · simp [CreateSecret]
  · simp [CreateSecret]
  · rcases hr : read 16 s with ⟨_ | x, s'⟩ <;> simp [CreateSecret, hr]
  · rcases hr : read 128 s with ⟨_ | x, s'⟩ <;> simp [CreateSecret, hr]

/-- C7, on three runs: length 15 with a working source, length 16 with a
failing source, length 16 with a working source. -/
theorem createSecret_error_iff_witness :
    CreateSecret testRead 0 15 = (.error .badSecretLength, 0)
      ∧ CreateSecret failRead 0 16 = (.error .noSourceOfSecureRandom, 1)
      ∧ CreateSecret testRead 0 16 = (.ok (str "AFKPUZ6DINSX4BGL"), 1)
      ∧ (((15 : Int) < 16 ∨ (15 : Int) > 128)
          ↔ CreateSecret testRead 0 15 = (.error .badSecretLength, 0)) :=
  ⟨by decide, by decide, by decide, (createSecret_error_iff testRead 0 15).2.1⟩

/-! ## C8 -/

/-- C8: for `16 <= L <= 128` and a sequence `x` of `L` bytes from the random
source, `CreateSecret(L)` returns a string of exactly `L` characters whose
`i`-th character is the `(x[i] & 31)`-th character of
`ABCDEFGHIJKLMNOPQRSTUVWXYZ234567`; every character is in `A-Z` or `2-7`, and
none is `=`. -/
theorem createSecret_chars {σ : Type} (read : Nat → σ → Option Bytes × σ) (s s' : σ)
    (L : Int) (x : Bytes) (h1 : 16 ≤ L) (h2 : L ≤ 128) (hx : (x.length : Int) = L)
    (hread : read L.toNat s = (some x, s')) :
    ∃ out, CreateSecret read s L = (.ok out, s')
      ∧ (out.length : Int) = L
      ∧ (∀ i, i < out.length →
          out.getD i 0 = (str "ABCDEFGHIJKLMNOPQRSTUVWXYZ234567").getD (x.getD i 0 &&& 31) 0)
      ∧ (∀ c ∈ out, (65 ≤ c ∧ c ≤ 90) ∨ (50 ≤ c ∧ c ≤ 55))
      ∧ 61 ∉ out := by
  refine ⟨_, CreateSecret_ok read s s' L x h1 h2 hread, ?_, ?_, ?_, ?_⟩
  · simpa using hx
  · intro i hi
    have hi' : i < x.length := by simpa using hi
    rw [List.getD_eq_getElem _ 0 hi, List.getD_eq_getElem _ 0 hi']
    simp [GetBase32LookupTable]
  · intro c hc
    obtain ⟨b, _, rfl⟩ := List.mem_map.1 hc
    exact lookup_range _ (and_31_lt b)
  · intro hc
    obtain ⟨b, _, hb⟩ := List.mem_map.1 hc
    have := lookup_range _ (and_31_lt b)
    omega

/-- C8, at length 16 on the bytes `0, 37, 74, ...`. -/
theorem createSecret_chars_witness :
    (16 : Int) ≤ 16 ∧ (16 : Int) ≤ 128
      ∧ (((List.range 16).map (fun i => i * 37 % 256)).length : Int) = 16
      ∧ testRead (16 : Int).toNat 0 = (some ((List.range 16).map (fun i => i * 37 % 256)), 1)
      ∧ CreateSecret testRead 0 16 = (.ok (str "AFKPUZ6DINSX4BGL"), 1)
      ∧ ∃ out, CreateSecret testRead 0 16 = (.ok out, 1)
          ∧ (out.length : Int) = 16
          ∧ (∀ i, i < out.length →
              out.getD i 0 = (str "ABCDEFGHIJKLMNOPQRSTUVWXYZ234567").getD
                (((List.range 16).map (fun i => i * 37 % 256)).getD i 0 &&& 31) 0)
          ∧ (∀ c ∈ out, (65 ≤ c ∧ c ≤ 90) ∨ (50 ≤ c ∧ c ≤ 55))
          ∧ 61 ∉ out :=
  ⟨by decide, by decide, by decide, by decide, by decide,
    createSecret_chars testRead 0 1 16 ((List.range 16).map (fun i => i * 37 % 256))
      (by decide) (by decide) (by decide) (by decide)⟩

/-! ## Lemmas: `encoding/base32` on input without padding -/

theorem decodeMap_ne (c : Nat) : decodeMap c ≠ 0xFF ↔ c ∈ encodeStd := by
  have hlen : encodeStd.length = 32 := by decide
  unfold decodeMap
  constructor
  · intro h
    by_cases hi : encodeStd.indexOf c < 32
    · rw [← hlen] at hi
      exact List.indexOf_lt_length.1 hi
    · simp [hi] at h
  · intro h
    have hi : encodeStd.indexOf c < 32 := by
      rw [← hlen]
      exact List.indexOf_lt_length.2 h
    simp only [hi, if_true]
    omega

theorem quantum_noPad (olen : Int) : ∀ (n j : Nat) (dbuf : List Nat) (src : Bytes),
    61 ∉ src →
      (∃ e, quantum olen n j dbuf src = .corrupt e)
        ∨ (n ≤ src.length ∧ (∀ c ∈ src.take n, c ∈ encodeStd)
            ∧ ∃ dbuf', quantum olen n j dbuf src = .done dbuf' 8 false (src.drop n)) := by
  intro n
  induction n with
  | zero =>
    intro j dbuf src _
    right
    exact ⟨Nat.zero_le _, by simp, dbuf, by simp [quantum]⟩
  | succ n ih =>
    intro j dbuf src hpad
    cases src with
    | nil => exact Or.inl ⟨olen - 0 - j, by simp [quantum]⟩
    | cons c rest =>
      have hc : c ≠ 61 := fun h => hpad (by simp [h])
      have hrest : 61 ∉ rest := fun h => hpad (by simp [h])
      by_cases hm : decodeMap c = 0xFF
      · exact Or.inl ⟨olen - rest.length - 1, by simp [quantum, hc, hm]⟩
      · have hq : quantum olen (n + 1) j dbuf (c :: rest)
            = quantum olen n (j + 1) (dbuf ++ [decodeMap c]) rest := by
          simp [quantum, hc, hm]
        rw [hq]
        rcases ih (j + 1) (dbuf ++ [decodeMap c]) rest hrest with h | ⟨h1, h2, h3⟩
        · exact Or.inl h
        · right
          refine ⟨by simpa using h1, ?_, by simpa using h3⟩
          intro x hx
          simp only [List.take_succ_cons, List.mem_cons] at hx
          rcases hx with rfl | hx
          · exact (decodeMap_ne _).1 hm
          · exact h2 x hx

theorem decodeLoop_noPad (olen : Int) : ∀ (fuel : Nat) (src : Bytes), 61 ∉ src →
    src.length ≤ fuel → (∃ out, decodeLoop olen fuel src = .ok out) →
      src.length % 8 = 0 ∧ ∀ c ∈ src, c ∈ encodeStd := by
  intro fuel
  induction fuel with
  | zero =>
    intro src _ hlen _
    have : src = [] := List.length_eq_zero.1 (by omega)
    subst this
    simp
  | succ f ih =>
    intro src hpad hlen hok
    by_cases hsrc : src = []
    · subst hsrc
      simp
    · obtain ⟨out, hout⟩ := hok
      rcases quantum_noPad olen 8 0 [] src hpad with ⟨e, he⟩ | ⟨h8, hmem, dbuf', hq⟩
      · simp [decodeLoop, hsrc, he] at hout
      · cases hrec : decodeLoop olen f (src.drop 8) with
        | error e => simp [decodeLoop, hsrc, hq, hrec] at hout
        | ok out' =>
          have hpad' : 61 ∉ src.drop 8 := fun h => hpad (List.mem_of_mem_drop h)
          have hl : (src.drop 8).length ≤ f := by simp; omega
          obtain ⟨g1, g2⟩ := ih (src.drop 8) hpad' hl ⟨out', hrec⟩
          constructor
          · simp at g1
            omega
          · intro c hc
            rw [← List.take_append_drop 8 src] at hc
            rcases List.mem_append.1 hc with hc | hc
            · exact hmem c hc
            · exact g2 c hc

theorem DecodeString_noPad (s : Bytes) (hpad : 61 ∉ stripNewlines s)
    (hbad : (∃ c ∈ stripNewlines s, c ∉ encodeStd) ∨ (stripNewlines s).length % 8 ≠ 0) :
    ∃ e, DecodeString s = .error e := by
  cases h : DecodeString s with
  | error e => exact ⟨e, rfl⟩
  | ok out =>
    exfalso
    obtain ⟨g1, g2⟩ := decodeLoop_noPad _ _ (stripNewlines s) hpad (le_refl _) ⟨out, h⟩
    rcases hbad with ⟨c, hc, hn⟩ | hl
    · exact hn (g2 c hc)
    · exact hl g1

/-! ## Lemmas: the secrets `CreateSecret` builds, seen by `Base32Decode` -/

/-- A character of `A-Z` or `2-7`. -/
theorem secretChar_cases (out : Bytes)
    (h : ∀ c ∈ out, (65 ≤ c ∧ c ≤ 90) ∨ (50 ≤ c ∧ c ≤ 55)) :
    TrimRight out = out ∧ (∀ up, ToUpper up out = out) ∧ stripNewlines out = out := by
  refine ⟨?_, ?_, ?_⟩
  · unfold TrimRight
    rw [List.rdropWhile_eq_self_iff]
    intro hl
    have := h _ (List.getLast_mem hl)
    simp only [beq_iff_eq]
    omega
  · intro up
    have hall : out.all (fun c => decide (c < 128)) = true := by
      rw [List.all_eq_true]
      intro c hc
      have := h c hc
      simp only [decide_eq_true_eq]
      omega
    unfold ToUpper
    rw [if_pos hall]
    conv_rhs => rw [← List.map_id out]
    apply List.map_congr_left
    intro c hc
    have := h c hc
    unfold upperByte
    rw [if_neg (by omega)]
    rfl
  · unfold stripNewlines
    rw [List.filter_eq_self]
    intro c hc
    have := h c hc
    have h13 : c ≠ 13 := by omega
    have h10 : c ≠ 10 := by omega
    simp [h13, h10]

/-- For a length from 16 to 128 that is not a multiple of 8, whatever bytes the
random source supplies, `Base32Decode` rejects the secret `CreateSecret`
returns. -/
theorem createSecret_not_decodable {σ : Type} (read : Nat → σ → Option Bytes × σ)
    (s s' : σ) (L : Int) (x : Bytes) (h1 : 16 ≤ L) (h2 : L ≤ 128)
    (hx : (x.length : Int) = L) (hread : read L.toNat s = (some x, s'))
    (hL : L % 8 ≠ 0) (up : Bytes → Bytes) :
    ∃ out e, CreateSecret read s L = (.ok out, s') ∧ Base32Decode up out = .error e := by
  have hr : ∀ c ∈ x.map (fun b => GetBase32LookupTable.getD (b &&& 31) 0),
      (65 ≤ c ∧ c ≤ 90) ∨ (50 ≤ c ∧ c ≤ 55) := by
    intro c hc
    obtain ⟨b, _, rfl⟩ := List.mem_map.1 hc
    exact lookup_range _ (and_31_lt b)
  obtain ⟨g1, g2, g3⟩ := secretChar_cases _ hr
  have hpad : 61 ∉ x.map (fun b => GetBase32LookupTable.getD (b &&& 31) 0) := by
    intro hc
    have := hr 61 hc
    omega
  have hlen : (x.map (fun b => GetBase32LookupTable.getD (b &&& 31) 0)).length % 8 ≠ 0 := by
    rw [List.length_map]
    omega
  obtain ⟨e, he⟩ := DecodeString_noPad (x.map (fun b => GetBase32LookupTable.getD (b &&& 31) 0))
    (by rw [g3]; exact hpad) (Or.inr (by rw [g3]; exact hlen))
  refine ⟨_, e, CreateSecret_ok read s s' L x h1 h2 hread, ?_⟩
  simp only [Base32Decode, g1, g2 up, he]

theorem quantum_ok (olen : Int) : ∀ (n j : Nat) (dbuf : List Nat) (src : Bytes),
    n ≤ src.length → (∀ c ∈ src.take n, c ∈ encodeStd) →
      quantum olen n j dbuf src
        = .done (dbuf ++ (src.take n).map decodeMap) 8 false (src.drop n) := by
  intro n
  induction n with
  | zero =>
    intro j dbuf src _ _
    simp [quantum]
  | succ n ih =>
    intro j dbuf src hlen hmem
    cases src with
    | nil => simp at hlen
    | cons c rest =>
      have hc : c ∈ encodeStd := hmem c (by simp)
      have h61 : c ≠ 61 := by
        intro h
        rw [h] at hc
        revert hc
        decide
      have hm : decodeMap c ≠ 0xFF := (decodeMap_ne c).2 hc
      have hq : quantum olen (n + 1) j dbuf (c :: rest)
          = quantum olen n (j + 1) (dbuf ++ [decodeMap c]) rest := by
        simp [quantum, h61, hm]
      rw [hq, ih (j + 1) (dbuf ++ [decodeMap c]) rest (by simpa using hlen)
        (fun x hx => hmem x (by simp [hx]))]
      simp

theorem pack_length_eight (dbuf : List Nat) : (pack dbuf 8).length = 5 := by
  simp [pack]

theorem decodeLoop_ok (olen : Int) : ∀ (k fuel : Nat) (src : Bytes),
    src.length = 8 * k → k ≤ fuel → (∀ c ∈ src, c ∈ encodeStd) →
      ∃ out, decodeLoop olen fuel src = .ok out ∧ out.length = 5 * k := by
  intro k
  induction k with
  | zero =>
    intro fuel src hlen _ _
    have : src = [] := List.length_eq_zero.1 (by omega)
    subst this
    cases fuel <;> exact ⟨[], by simp [decodeLoop], rfl⟩
  | succ k ih =>
    intro fuel src hlen hfuel hmem
    obtain ⟨f, rfl⟩ : ∃ f, fuel = f + 1 := ⟨fuel - 1, by omega⟩
    have hsrc : src ≠ [] := by
      intro h
      rw [h] at hlen
      simp at hlen
    have hq := quantum_ok olen 8 0 [] src (by omega)
      (fun c hc => hmem c (List.mem_of_mem_take hc))
    obtain ⟨out, ho, hl⟩ := ih f (src.drop 8) (by simp; omega) (by omega)
      (fun c hc => hmem c (List.mem_of_mem_drop hc))
    refine ⟨pack ([] ++ (src.take 8).map decodeMap) 8 ++ out, ?_, ?_⟩
    · simp only [decodeLoop, hsrc, if_false, hq, ho]
    · rw [List.length_append, pack_length_eight, hl]
      omega

/-- For a length from 16 to 128 that is a multiple of 8, whatever bytes the
random source supplies, `Base32Decode` accepts the secret `CreateSecret`
returns and yields `5 * L / 8` bytes. -/
theorem createSecret_decodable {σ : Type} (read : Nat → σ → Option Bytes × σ)
    (s s' : σ) (L : Int) (x : Bytes) (h1 : 16 ≤ L) (h2 : L ≤ 128)
    (hx : (x.length : Int) = L) (hread : read L.toNat s = (some x, s'))
    (hL : L % 8 = 0) (up : Bytes → Bytes) :
    ∃ out key, CreateSecret read s L = (.ok out, s') ∧ Base32Decode up out = .ok key
      ∧ (key.length : Int) = 5 * L / 8 := by
  have hr : ∀ c ∈ x.map (fun b => GetBase32LookupTable.getD (b &&& 31) 0),
      (65 ≤ c ∧ c ≤ 90) ∨ (50 ≤ c ∧ c ≤ 55) := by
    intro c hc
    obtain ⟨b, _, rfl⟩ := List.mem_map.1 hc
    exact lookup_range _ (and_31_lt b)
  have hm : ∀ c ∈ x.map (fun b => GetBase32LookupTable.getD (b &&& 31) 0), c ∈ encodeStd := by
    intro c hc
    obtain ⟨b, _, rfl⟩ := List.mem_map.1 hc
    exact lookup_mem _ (and_31_lt b)
  obtain ⟨g1, g2, g3⟩ := secretChar_cases _ hr
  have hlen : (x.map (fun b => GetBase32LookupTable.getD (b &&& 31) 0)).length
      = 8 * (x.length / 8) := by
    rw [List.length_map]
    omega
  obtain ⟨key, hk, hkl⟩ := decodeLoop_ok
    ((x.map (fun b => GetBase32LookupTable.getD (b &&& 31) 0)).length) (x.length / 8)
    ((x.map (fun b => GetBase32LookupTable.getD (b &&& 31) 0)).length) _ hlen
    (by rw [List.length_map]; omega) hm
  refine ⟨_, key, CreateSecret_ok read s s' L x h1 h2 hread, ?_, ?_⟩
  · simp only [Base32Decode, g1, g2 up, DecodeString, g3, hk]
  · rw [hkl]
    omega

/-! ## C9 -/

/-- C9 fails on the code at length 17: from seventeen random bytes
`CreateSecret(17)` builds a secret of seventeen alphabet characters, and
`Base32Decode` rejects it with `CorruptInputError(16)`, so `GetCode` on the
fresh secret returns that error. -/
theorem createSecret_17_not_decodable :
    CreateSecret testRead 0 17 = (.ok (str "AFKPUZ6DINSX4BGLQ"), 1)
      ∧ Base32Decode refPlatform.unicodeUpper (str "AFKPUZ6DINSX4BGLQ") = .error 16
      ∧ (GetCode refPlatform (NewGoogleAuthenticator 6) (fun _ => 1700000000)
          (str "AFKPUZ6DINSX4BGLQ") 0).1 = .err 16 := by
  decide

/-! ## C10 -/

/-- C10, amended: let `w` be the upper-cased secret with its trailing `=`
stripped and its `\r` and `\n` bytes dropped.  If no `=` is left in `w`, and
`w` contains a character outside `ABCDEFGHIJKLMNOPQRSTUVWXYZ234567` or has a
length that is not a multiple of 8, then `Base32Decode` returns an error (and
no bytes). -/
theorem base32Decode_rejects (unicodeUpper : Bytes → Bytes) (secret : Bytes)
    (hpad : 61 ∉ stripNewlines (ToUpper unicodeUpper (TrimRight secret)))
    (hbad : (∃ c ∈ stripNewlines (ToUpper unicodeUpper (TrimRight secret)),
                c ∉ str "ABCDEFGHIJKLMNOPQRSTUVWXYZ234567")
            ∨ (stripNewlines (ToUpper unicodeUpper (TrimRight secret))).length % 8 ≠ 0) :
    ∃ e, Base32Decode unicodeUpper secret = .error e := by
  obtain ⟨e, he⟩ := DecodeString_noPad _ hpad hbad
  exact ⟨e, by simp [Base32Decode, he]⟩

/-- C10, amended, at `JBSWY3DPEHPK3PX1` (character `1`) and at `MFRGG===`
(5 characters once the padding is stripped). -/
theorem base32Decode_rejects_witness :
    (61 ∉ stripNewlines (ToUpper id (TrimRight (str "JBSWY3DPEHPK3PX1")))
      ∧ ((∃ c ∈ stripNewlines (ToUpper id (TrimRight (str "JBSWY3DPEHPK3PX1"))),
              c ∉ str "ABCDEFGHIJKLMNOPQRSTUVWXYZ234567")
          ∨ (stripNewlines (ToUpper id (TrimRight (str "JBSWY3DPEHPK3PX1")))).length % 8 ≠ 0)
      ∧ ∃ e, Base32Decode id (str "JBSWY3DPEHPK3PX1") = .error e)
    ∧ (61 ∉ stripNewlines (ToUpper id (TrimRight (str "MFRGG===")))
      ∧ ((∃ c ∈ stripNewlines (ToUpper id (TrimRight (str "MFRGG==="))),
              c ∉ str "ABCDEFGHIJKLMNOPQRSTUVWXYZ234567")
          ∨ (stripNewlines (ToUpper id (TrimRight (str "MFRGG===")))).length % 8 ≠ 0)
      ∧ ∃ e, Base32Decode id (str "MFRGG===") = .error e) :=
  ⟨⟨by decide, by decide,
      base32Decode_rejects id (str "JBSWY3DPEHPK3PX1") (by decide) (by decide)⟩,
    ⟨by decide, by decide,
      base32Decode_rejects id (str "MFRGG===") (by decide) (by decide)⟩⟩

/-- C10 as stated fails on a secret with a newline: `AAAAAAAA` followed by a
line feed has 9 bytes, one of them outside the alphabet, and decodes to five
zero bytes; `AA======` followed by a line feed keeps its padding, has 9 bytes,
seven of them outside the alphabet, and decodes to one zero byte. -/
theorem base32Decode_rejects_counterexample :
    (ToUpper id (TrimRight (str "AAAAAAAA" ++ [10])) = str "AAAAAAAA" ++ [10]
      ∧ 10 ∉ str "ABCDEFGHIJKLMNOPQRSTUVWXYZ234567"
      ∧ (ToUpper id (TrimRight (str "AAAAAAAA" ++ [10]))).length % 8 ≠ 0
      ∧ Base32Decode id (str "AAAAAAAA" ++ [10]) = .ok [0, 0, 0, 0, 0])
    ∧ (ToUpper id (TrimRight (str "AA======" ++ [10])) = str "AA======" ++ [10]
      ∧ 61 ∉ str "ABCDEFGHIJKLMNOPQRSTUVWXYZ234567"
      ∧ (ToUpper id (TrimRight (str "AA======" ++ [10]))).length % 8 ≠ 0
      ∧ Base32Decode id (str "AA======" ++ [10]) = .ok [0]) := by
  decide

/-! ## Lemmas: `encoding/base32` on full quanta -/

theorem bitsBE_eight (x : Nat) :
    bitsBE 8 x = [x / 128 % 2, x / 64 % 2, x / 32 % 2, x / 16 % 2, x / 8 % 2, x / 4 % 2,
      x / 2 % 2, x % 2] := by
  simp [bitsBE, List.range, List.range.loop]

theorem bitsBE_five (x : Nat) :
    bitsBE 5 x = [x / 16 % 2, x / 8 % 2, x / 4 % 2, x / 2 % 2, x % 2] := by
  simp [bitsBE, List.range, List.range.loop]

theorem pack_eight (d0 d1 d2 d3 d4 d5 d6 d7 : Nat) (h1 : d1 < 32)
    (h2 : d2 < 32) (h3 : d3 < 32) (h4 : d4 < 32) (h5 : d5 < 32) (h6 : d6 < 32)
    (h7 : d7 < 32) :
    pack [d0, d1, d2, d3, d4, d5, d6, d7] 8
      = [d0 * 8 % 256 + d1 / 4, d1 * 64 % 256 + d2 * 2 + d3 / 16, d3 * 16 % 256 + d4 / 2,
         d4 * 128 % 256 + d5 * 4 + d6 / 8, d6 * 32 % 256 + d7] := by
  have b0 : ((d0 <<< 3) % 256) ||| (d1 >>> 2) = d0 * 8 % 256 + d1 / 4 := by
    rw [Nat.shiftLeft_eq, Nat.shiftRight_eq_div_pow]
    exact or_eq_add 3 _ _ (by omega) (by omega)
  have b1 : ((d1 <<< 6) % 256) ||| ((d2 <<< 1) % 256) ||| (d3 >>> 4)
      = d1 * 64 % 256 + d2 * 2 + d3 / 16 := by
    rw [Nat.shiftLeft_eq, Nat.shiftLeft_eq, Nat.shiftRight_eq_div_pow]
    have e : d1 * 2 ^ 6 % 256 ||| d2 * 2 ^ 1 % 256 = d1 * 64 % 256 + d2 * 2 := by
      rw [or_eq_add 6 _ _ (by omega) (by omega)]
      omega
    rw [e]
    exact or_eq_add 1 _ _ (by omega) (by omega)
  have b2 : ((d3 <<< 4) % 256) ||| (d4 >>> 1) = d3 * 16 % 256 + d4 / 2 := by
    rw [Nat.shiftLeft_eq, Nat.shiftRight_eq_div_pow]
    exact or_eq_add 4 _ _ (by omega) (by omega)
  have b3 : ((d4 <<< 7) % 256) ||| ((d5 <<< 2) % 256) ||| (d6 >>> 3)
      = d4 * 128 % 256 + d5 * 4 + d6 / 8 := by
    rw [Nat.shiftLeft_eq, Nat.shiftLeft_eq, Nat.shiftRight_eq_div_pow]
    have e : d4 * 2 ^ 7 % 256 ||| d5 * 2 ^ 2 % 256 = d4 * 128 % 256 + d5 * 4 := by
      rw [or_eq_add 7 _ _ (by omega) (by omega)]
      omega
    rw [e]
    exact or_eq_add 2 _ _ (by omega) (by omega)
  have b4 : ((d6 <<< 5) % 256) ||| d7 = d6 * 32 % 256 + d7 := by
    rw [Nat.shiftLeft_eq]
    exact or_eq_add 5 _ _ (by omega) (by omega)
  simp only [pack, List.getD_cons_zero, List.getD_cons_succ, if_true, b0, b1, b2, b3, b4]

theorem pack_bits (d0 d1 d2 d3 d4 d5 d6 d7 : Nat) (h0 : d0 < 32) (h1 : d1 < 32)
    (h2 : d2 < 32) (h3 : d3 < 32) (h4 : d4 < 32) (h5 : d5 < 32) (h6 : d6 < 32)
    (h7 : d7 < 32) :
    (pack [d0, d1, d2, d3, d4, d5, d6, d7] 8).flatMap (bitsBE 8)
        = [d0, d1, d2, d3, d4, d5, d6, d7].flatMap (bitsBE 5)
      ∧ ∀ b ∈ pack [d0, d1, d2, d3, d4, d5, d6, d7] 8, b < 256 := by
  rw [pack_eight d0 d1 d2 d3 d4 d5 d6 d7 h1 h2 h3 h4 h5 h6 h7]
  constructor
  · simp only [List.flatMap_cons, List.flatMap_nil, bitsBE_eight, bitsBE_five, List.cons_append,
      List.nil_append, List.append_nil, List.cons.injEq, and_true]
    refine ⟨?_, ?_, ?_, ?_, ?_, ?_, ?_, ?_, ?_, ?_, ?_, ?_, ?_, ?_, ?_, ?_, ?_, ?_, ?_, ?_,
      ?_, ?_, ?_, ?_, ?_, ?_, ?_, ?_, ?_, ?_, ?_, ?_, ?_, ?_, ?_, ?_, ?_, ?_, ?_, ?_⟩ <;> omega
  · intro b hb
    simp only [List.mem_cons, List.mem_singleton, List.not_mem_nil, or_false] at hb
    rcases hb with rfl | rfl | rfl | rfl | rfl <;> omega

theorem decodeMap_lt (c : Nat) (h : c ∈ encodeStd) : decodeMap c < 32 := by
  have hlen : encodeStd.length = 32 := by decide
  have hi : encodeStd.indexOf c < 32 := by
    rw [← hlen]
    exact List.indexOf_lt_length.2 h
  unfold decodeMap
  rw [if_pos hi]
  exact hi

theorem eight_cons (src : Bytes) (h : 8 ≤ src.length) :
    ∃ c0 c1 c2 c3 c4 c5 c6 c7 rest, src = c0 :: c1 :: c2 :: c3 :: c4 :: c5 :: c6 :: c7 :: rest := by
  rcases src with _ | ⟨c0, _ | ⟨c1, _ | ⟨c2, _ | ⟨c3, _ | ⟨c4, _ | ⟨c5, _ | ⟨c6, _ | ⟨c7, rest⟩⟩⟩⟩⟩⟩⟩⟩
  all_goals first
    | exact ⟨c0, c1, c2, c3, c4, c5, c6, c7, rest, rfl⟩
    | (simp at h)

theorem decodeLoop_bits (olen : Int) : ∀ (k fuel : Nat) (src : Bytes),
    src.length = 8 * k → k ≤ fuel → (∀ c ∈ src, c ∈ encodeStd) →
      ∃ out, decodeLoop olen fuel src = .ok out ∧ out.length = 5 * k
        ∧ (∀ b ∈ out, b < 256)
        ∧ out.flatMap (bitsBE 8) = src.flatMap (fun c => bitsBE 5 (decodeMap c)) := by
  intro k
  induction k with
  | zero =>
    intro fuel src hlen _ _
    have : src = [] := List.length_eq_zero.1 (by omega)
    subst this
    cases fuel <;> exact ⟨[], by simp [decodeLoop], rfl, by simp, rfl⟩
  | succ k ih =>
    intro fuel src hlen hfuel hmem
    obtain ⟨f, rfl⟩ : ∃ f, fuel = f + 1 := ⟨fuel - 1, by omega⟩
    obtain ⟨c0, c1, c2, c3, c4, c5, c6, c7, rest, rfl⟩ := eight_cons src (by omega)
    have hq := quantum_ok olen 8 0 [] (c0 :: c1 :: c2 :: c3 :: c4 :: c5 :: c6 :: c7 :: rest)
      (by simp) (fun c hc => hmem c (List.mem_of_mem_take hc))
    have hq' : quantum olen 8 0 [] (c0 :: c1 :: c2 :: c3 :: c4 :: c5 :: c6 :: c7 :: rest)
        = .done [decodeMap c0, decodeMap c1, decodeMap c2, decodeMap c3, decodeMap c4,
            decodeMap c5, decodeMap c6, decodeMap c7] 8 false rest := by
      rw [hq]
      rfl
    obtain ⟨out, ho, hl, hb, hbits⟩ := ih f rest (by simp at hlen; omega) (by omega)
      (fun c hc => hmem c (by simp [hc]))
    obtain ⟨pb, pl⟩ := pack_bits (decodeMap c0) (decodeMap c1) (decodeMap c2) (decodeMap c3)
      (decodeMap c4) (decodeMap c5) (decodeMap c6) (decodeMap c7)
      (decodeMap_lt _ (hmem c0 (by simp))) (decodeMap_lt _ (hmem c1 (by simp)))
      (decodeMap_lt _ (hmem c2 (by simp))) (decodeMap_lt _ (hmem c3 (by simp)))
      (decodeMap_lt _ (hmem c4 (by simp))) (decodeMap_lt _ (hmem c5 (by simp)))
      (decodeMap_lt _ (hmem c6 (by simp))) (decodeMap_lt _ (hmem c7 (by simp)))
    refine ⟨pack [decodeMap c0, decodeMap c1, decodeMap c2, decodeMap c3, decodeMap c4,
        decodeMap c5, decodeMap c6, decodeMap c7] 8 ++ out, ?_, ?_, ?_, ?_⟩
    · simp only [decodeLoop, List.cons_ne_nil, if_false, hq', ho, reduceCtorEq]
    · rw [List.length_append, pack_length_eight, hl]
      omega
    · intro b hbm
      rcases List.mem_append.1 hbm with h | h
      · exact pl b h
      · exact hb b h
    · rw [List.flatMap_append, pb, hbits]
      rfl

theorem rdropWhile_append_replicate (p : Nat → Bool) (a : Nat) (ha : p a = true)
    (l : Bytes) : ∀ k, (l ++ List.replicate k a).rdropWhile p = l.rdropWhile p := by
  intro k
  induction k with
  | zero => simp
  | succ k ih =>
    rw [List.replicate_succ', ← List.append_assoc, List.rdropWhile_concat_pos _ _ _ ha, ih]

theorem base32Char_upper : ∀ c, c < 123 → isBase32Char c →
    upperByte c ∈ encodeStd ∧ decodeMap (upperByte c) = index32 c
      ∧ ((65 ≤ upperByte c ∧ upperByte c ≤ 90) ∨ (50 ≤ upperByte c ∧ upperByte c ≤ 55)) := by
  decide

theorem isBase32Char_lt (c : Nat) (h : isBase32Char c) : c < 123 := by
  unfold isBase32Char at h
  omega

theorem Base32Decode_norm (up : Bytes → Bytes) (body : Bytes) (k : Nat)
    (hbody : ∀ c ∈ body, isBase32Char c) :
    Base32Decode up (body ++ List.replicate k 61)
      = decodeLoop body.length body.length (body.map upperByte) := by
  have htrim : TrimRight (body ++ List.replicate k 61) = body := by
    unfold TrimRight
    rw [rdropWhile_append_replicate _ 61 (by decide) body k, List.rdropWhile_eq_self_iff]
    intro hl
    have := hbody _ (List.getLast_mem hl)
    unfold isBase32Char at this
    simp only [beq_iff_eq]
    omega
  have hall : body.all (fun c => decide (c < 128)) = true := by
    rw [List.all_eq_true]
    intro c hc
    have := isBase32Char_lt c (hbody c hc)
    simp only [decide_eq_true_eq]
    omega
  have hup : ToUpper up body = body.map upperByte := by
    unfold ToUpper
    rw [if_pos hall]
  have hstrip : stripNewlines (body.map upperByte) = body.map upperByte := by
    unfold stripNewlines
    rw [List.filter_eq_self]
    intro c hc
    obtain ⟨x, hx, rfl⟩ := List.mem_map.1 hc
    have := (base32Char_upper x (isBase32Char_lt x (hbody x hx)) (hbody x hx)).2.2
    have h13 : upperByte x ≠ 13 := by omega
    have h10 : upperByte x ≠ 10 := by omega
    simp [h13, h10]
  unfold Base32Decode
  rw [htrim, hup]
  unfold DecodeString
  simp only [hstrip, List.length_map]
  cases decodeLoop body.length body.length (body.map upperByte) <;> rfl

/-! ## C11 -/

/-- C11: for a text of `n` base32-alphabet characters in either letter case,
`n` a multiple of 8, followed by any number of `=`, `Base32Decode` succeeds with
exactly `5n/8` bytes whose bits, most significant first, are the 5-bit alphabet
indices of the characters in order; a text that differs only in letter case or
in the number of `=` appended decodes to the same result. -/
theorem base32Decode_accepts (unicodeUpper : Bytes → Bytes) (body : Bytes) (k : Nat)
    (hbody : ∀ c ∈ body, isBase32Char c) (hn : body.length % 8 = 0) :
    ∃ out, Base32Decode unicodeUpper (body ++ List.replicate k 61) = .ok out
      ∧ out.length = 5 * body.length / 8
      ∧ (∀ b ∈ out, b < 256)
      ∧ out.flatMap (bitsBE 8) = body.flatMap (fun c => bitsBE 5 (index32 c))
      ∧ ∀ (body' : Bytes) (k' : Nat), (∀ c ∈ body', isBase32Char c) →
          body'.map upperByte = body.map upperByte →
          Base32Decode unicodeUpper (body' ++ List.replicate k' 61) = .ok out := by
  have hmem : ∀ c ∈ body.map upperByte, c ∈ encodeStd := by
    intro c hc
    obtain ⟨x, hx, rfl⟩ := List.mem_map.1 hc
    exact (base32Char_upper x (isBase32Char_lt x (hbody x hx)) (hbody x hx)).1
  obtain ⟨out, ho, hl, hb, hbits⟩ := decodeLoop_bits body.length (body.length / 8) body.length
    (body.map upperByte) (by rw [List.length_map]; omega) (by omega) hmem
  have hnorm := Base32Decode_norm unicodeUpper body k hbody
  refine ⟨out, by rw [hnorm, ho], by omega, hb, ?_, ?_⟩
  · rw [hbits, List.flatMap_map]
    apply List.flatMap_congr
    intro c hc
    rw [(base32Char_upper c (isBase32Char_lt c (hbody c hc)) (hbody c hc)).2.1]
  · intro body' k' hbody' hsame
    have hlen : body'.length = body.length := by
      have := congrArg List.length hsame
      simpa using this
    rw [Base32Decode_norm unicodeUpper body' k' hbody', hsame, hlen, ho]

/-- C11, at `JBSWY3DPEHPK3PXP`: it decodes to `48 65 6C 6C 6F 21 DE AD BE EF`,
and so does `jbswy3dpehpk3pxp==`. -/
theorem base32Decode_accepts_witness :
    (∀ c ∈ str "JBSWY3DPEHPK3PXP", isBase32Char c)
      ∧ (str "JBSWY3DPEHPK3PXP").length % 8 = 0
      ∧ Base32Decode id (str "JBSWY3DPEHPK3PXP")
          = .ok [0x48, 0x65, 0x6C, 0x6C, 0x6F, 0x21, 0xDE, 0xAD, 0xBE, 0xEF]
      ∧ Base32Decode id (str "jbswy3dpehpk3pxp==")
          = .ok [0x48, 0x65, 0x6C, 0x6C, 0x6F, 0x21, 0xDE, 0xAD, 0xBE, 0xEF]
      ∧ ∃ out, Base32Decode id (str "JBSWY3DPEHPK3PXP" ++ List.replicate 0 61) = .ok out
          ∧ out.length = 5 * (str "JBSWY3DPEHPK3PXP").length / 8
          ∧ (∀ b ∈ out, b < 256)
          ∧ out.flatMap (bitsBE 8)
              = (str "JBSWY3DPEHPK3PXP").flatMap (fun c => bitsBE 5 (index32 c))
          ∧ ∀ (body' : Bytes) (k' : Nat), (∀ c ∈ body', isBase32Char c) →
              body'.map upperByte = (str "JBSWY3DPEHPK3PXP").map upperByte →
              Base32Decode id (body' ++ List.replicate k' 61) = .ok out :=
  ⟨by decide, by decide, by decide, by decide,
    base32Decode_accepts id (str "JBSWY3DPEHPK3PXP") 0 (by decide) (by decide)⟩


/-! ## C12 -/

/-- C12: `TimingSafeEquals(a, b)` returns true if and only if `a` and `b` are
the same string (the same length and the same byte at every position); it
returns false whenever the lengths differ. -/
theorem timingSafeEquals_correct (a b : Bytes) :
    (TimingSafeEquals a b = true ↔ a = b)
      ∧ (TimingSafeEquals a b = true
          ↔ a.length = b.length ∧ ∀ i, i < a.length → a.getD i 0 = b.getD i 0)
      ∧ (a.length ≠ b.length → TimingSafeEquals a b = false) := by
  refine ⟨TimingSafeEquals_iff a b, ?_, ?_⟩
  · rw [TimingSafeEquals_iff]
    constructor
    · rintro rfl
      exact ⟨rfl, fun _ _ => rfl⟩
    · rintro ⟨hl, h⟩
      apply List.ext_getElem hl
      intro i h1 h2
      have := h i h1
      rwa [List.getD_eq_getElem a 0 h1, List.getD_eq_getElem b 0 h2] at this
  · intro hl
    rw [← Bool.not_eq_true, TimingSafeEquals_iff]
    intro h
    exact hl (congrArg List.length h)

/-- C12, on three pairs: equal codes, codes that differ in the last byte, and
codes of different lengths. -/
theorem timingSafeEquals_correct_witness :
    TimingSafeEquals (str "287082") (str "287082") = true
      ∧ TimingSafeEquals (str "287082") (str "287083") = false
      ∧ TimingSafeEquals (str "28708") (str "287082") = false
      ∧ ((str "28708").length ≠ (str "287082").length
          → TimingSafeEquals (str "28708") (str "287082") = false) :=
  ⟨by decide, by decide, by decide, (timingSafeEquals_correct (str "28708") (str "287082")).2.2⟩

/-! ## C13 -/

/-- C13: on strings `a`, `b` of equal length the loop of `TimingSafeEquals`
leaves through its condition after exactly `len(a)` iterations, however many
tests of the condition are allowed, with the accumulator holding the OR of the
XORs of all `len(a)` byte pairs; below `len(a)` the condition holds whatever the
accumulator holds (no early exit) and the iteration at index `k` XORs and
accumulates the pair `a[k]`, `b[k]`, both inside their strings; the value
`TimingSafeEquals` returns is `result == 0` of this run; and the runs on two
pairs of one common length perform the same number of iterations. -/
theorem timingSafeEquals_steps (a b a' b' : Bytes) (h : a.length = b.length)
    (h' : a'.length = b'.length) (hsame : a.length = a'.length) :
    eqRun a b
        = some (⟨a.length,
            (List.zipWith (fun x y => x ^^^ y) a b).foldl (fun s v => s ||| v) 0⟩, a.length)
      ∧ (∀ fuel, a.length < fuel →
          forLoop (eqCond a) (eqBody a b) fuel ⟨0, 0⟩ 0 = eqRun a b)
      ∧ (∀ k r, k < a.length →
          eqCond a ⟨k, r⟩ = true ∧ k < b.length
            ∧ eqBody a b ⟨k, r⟩ = ⟨k + 1, r ||| (a.getD k 0 ^^^ b.getD k 0)⟩)
      ∧ (∀ r, eqCond a ⟨a.length, r⟩ = false)
      ∧ (List.zipWith (fun x y => x ^^^ y) a b).length = a.length
      ∧ TimingSafeEquals a b
          = ((List.zipWith (fun x y => x ^^^ y) a b).foldl (fun s v => s ||| v) 0 == 0)
      ∧ (eqRun a b).map Prod.snd = some a.length
      ∧ (eqRun a b).map Prod.snd = (eqRun a' b').map Prod.snd := by
  have e := eqRun_eq a b h
  have e' := eqRun_eq a' b' h'
  refine ⟨by rw [e, xorFold_foldl], ?_, ?_, ?_, by simp [h], ?_, by rw [e]; rfl,
    by rw [e, e', hsame]; rfl⟩
  · intro fuel hf
    rw [e]
    simpa using forLoop_eq a b h a.length 0 0 0 fuel (by omega) hf
  · intro k r hk
    exact ⟨by simp [eqCond, hk], by omega, rfl⟩
  · intro r
    simp [eqCond]
  · rw [TimingSafeEquals_eq, if_neg (by simpa using h), xorFold_foldl]

/-- C13, on a pair that differs in its first byte, a pair that differs in its
last byte and a pair of equal strings: six iterations each. -/
theorem timingSafeEquals_steps_witness :
    (str "187082").length = (str "287082").length
      ∧ (str "287082").length = (str "287083").length
      ∧ (str "187082").length = (str "287082").length
      ∧ eqRun (str "187082") (str "287082") = some (⟨6, 3⟩, 6)
      ∧ eqRun (str "287082") (str "287083") = some (⟨6, 1⟩, 6)
      ∧ eqRun (str "287082") (str "287082") = some (⟨6, 0⟩, 6)
      ∧ TimingSafeEquals (str "187082") (str "287082") = false
      ∧ (eqRun (str "187082") (str "287082")).map Prod.snd
          = (eqRun (str "287082") (str "287083")).map Prod.snd :=
  ⟨by decide, by decide, by decide, by decide, by decide, by decide, by decide,
    (timingSafeEquals_steps (str "187082") (str "287082") (str "287082") (str "287083")
      (by decide) (by decide) (by decide)).2.2.2.2.2.2.2⟩

/-! ## C14 -/

theorem GetCode_codeAt (p : Platform) (ga : GoogleAuthenticator) (clk : Clock)
    (secret : Bytes) (t : Int) :
    GetCode p ga clk secret t = (codeAt p ga secret (orNow clk t).1, (orNow clk t).2) := by
  simp only [GetCode, codeAt]
  cases Base32Decode p.unicodeUpper secret <;> rfl

theorem tdiv_thirty (now : Int) (h : 0 ≤ now) : Int.tdiv now 30 = now / 30 := by
  rw [Int.tdiv_eq_ediv h (by norm_num)]

/-- C14: with the clock reading `now >= 0`, `GetCode(secret, 0)` returns the
code of the counter `floor(now / 30)`, reading the clock once; when that counter
is not 0 it is what `GetCode(secret, floor(now / 30))` returns under any clock;
and two readings in the same 30-second window give the same result. -/
theorem getCode_sentinel (p : Platform) (ga : GoogleAuthenticator) (clk clk' : Clock)
    (secret : Bytes) (h : 0 ≤ clk 0) :
    GetCode p ga clk secret 0 = (codeAt p ga secret (clk 0 / 30), clk.tail)
      ∧ (clk 0 / 30 ≠ 0 →
          (GetCode p ga clk' secret (clk 0 / 30)).1 = (GetCode p ga clk secret 0).1)
      ∧ (0 ≤ clk' 0 → clk' 0 / 30 = clk 0 / 30 →
          (GetCode p ga clk' secret 0).1 = (GetCode p ga clk secret 0).1) := by
  have e : ∀ c : Clock, 0 ≤ c 0 → GetCode p ga c secret 0
      = (codeAt p ga secret (c 0 / 30), c.tail) := by
    intro c hc
    rw [GetCode_codeAt]
    simp only [orNow, if_true, tdiv_thirty (c 0) hc]
  refine ⟨e clk h, ?_, ?_⟩
  · intro hne
    rw [e clk h, GetCode_codeAt, orNow_ne clk' _ hne]
  · intro h' hsame
    rw [e clk h, e clk' h', hsame]

/-- C14, at the secret of RFC 4226 appendix D with the clock at 59 and at 30:
both give the code of counter 1. -/
theorem getCode_sentinel_witness :
    (0 : Int) ≤ (fun _ => 59 : Clock) 0
      ∧ (GetCode refPlatform (NewGoogleAuthenticator 6) (fun _ => 59) rfcSecret 0).1
          = .ok (str "287082")
      ∧ (GetCode refPlatform (NewGoogleAuthenticator 6) (fun _ => 59) rfcSecret 0
            = (codeAt refPlatform (NewGoogleAuthenticator 6) rfcSecret
                ((fun _ => 59 : Clock) 0 / 30), Clock.tail (fun _ => 59))
        ∧ ((fun _ => 59 : Clock) 0 / 30 ≠ 0 →
            (GetCode refPlatform (NewGoogleAuthenticator 6) (fun _ => 30) rfcSecret
              ((fun _ => 59 : Clock) 0 / 30)).1
              = (GetCode refPlatform (NewGoogleAuthenticator 6) (fun _ => 59) rfcSecret 0).1)
        ∧ (0 ≤ (fun _ => 30 : Clock) 0 →
            (fun _ => 30 : Clock) 0 / 30 = (fun _ => 59 : Clock) 0 / 30 →
            (GetCode refPlatform (NewGoogleAuthenticator 6) (fun _ => 30) rfcSecret 0).1
              = (GetCode refPlatform (NewGoogleAuthenticator 6) (fun _ => 59) rfcSecret 0).1)) :=
  ⟨by decide, by decide,
    getCode_sentinel refPlatform (NewGoogleAuthenticator 6) (fun _ => 59) (fun _ => 30)
      rfcSecret (by decide)⟩

/-! ## C15 -/

/-- C15: for a nonzero time step `t`, `GetCode(secret, t)` does not read the
clock, and its result (the code, the error or the panic) is the same under any
two clocks: it is the code of the counter `t`, which depends on the code length,
the secret and `t` alone. -/
theorem getCode_deterministic (p : Platform) (ga : GoogleAuthenticator) (clk clk' : Clock)
    (secret : Bytes) (t : Int) (ht : t ≠ 0) :
    (GetCode p ga clk secret t).1 = (GetCode p ga clk' secret t).1
      ∧ (GetCode p ga clk secret t).1 = codeAt p ga secret t
      ∧ (GetCode p ga clk secret t).2 = clk := by
  rw [GetCode_codeAt, GetCode_codeAt, orNow_ne clk t ht, orNow_ne clk' t ht]
  exact ⟨rfl, rfl, rfl⟩

/-- C15, at the secret of RFC 4226 appendix D and time step 1 under the clocks
0 and 1700000000. -/
theorem getCode_deterministic_witness :
    (1 : Int) ≠ 0
      ∧ (GetCode refPlatform (NewGoogleAuthenticator 6) (fun _ => 0) rfcSecret 1).1
          = (GetCode refPlatform (NewGoogleAuthenticator 6) (fun _ => 1700000000) rfcSecret 1).1
      ∧ (GetCode refPlatform (NewGoogleAuthenticator 6) (fun _ => 0) rfcSecret 1).1
          = codeAt refPlatform (NewGoogleAuthenticator 6) rfcSecret 1
      ∧ (GetCode refPlatform (NewGoogleAuthenticator 6) (fun _ => 0) rfcSecret 1).2
          = fun _ => 0 :=
  ⟨by decide,
    getCode_deterministic refPlatform (NewGoogleAuthenticator 6) (fun _ => 0)
      (fun _ => 1700000000) rfcSecret 1 (by decide)⟩

/-! ## C16 -/

/-- C16: for every label and secret, the content `GenerateQRCode` hands to
the QR encoder is `otpauth://totp/` followed by the label, `?secret=` and the
secret, each embedded byte for byte; the result of `GenerateQRCode` is what the
encoder, the scaling, the PNG encoder and base64 make of that content. -/
theorem generateQRCode_content (title secret : Bytes) :
    SprintfS (str "otpauth://totp/%s?secret=%s") [title, secret]
        = some (str "otpauth://totp/" ++ title ++ str "?secret=" ++ secret)
      ∧ qrContent title secret = str "otpauth://totp/" ++ title ++ str "?secret=" ++ secret
      ∧ ∀ (Img : Type) (lib : QrLib Img), GenerateQRCode lib title secret
          = (match lib.qrEncode (str "otpauth://totp/" ++ title ++ str "?secret=" ++ secret) with
            | .error err => .error err
            | .ok qrCode =>
              match lib.scale qrCode with
              | .error err => .error err
              | .ok qrCode =>
                match lib.pngEncode qrCode with
                | .error err => .error err
                | .ok pngData => .ok (lib.base64 pngData)) := by
  have e : SprintfS (str "otpauth://totp/%s?secret=%s") [title, secret]
      = some (str "otpauth://totp/" ++ title ++ str "?secret=" ++ secret) := by
    simp [SprintfS, str]
  have e' : qrContent title secret
      = str "otpauth://totp/" ++ title ++ str "?secret=" ++ secret := by
    unfold qrContent
    rw [e]
    rfl
  refine ⟨e, e', ?_⟩
  intro Img lib
  unfold GenerateQRCode
  rw [e']

/-- C16, at a label with a space, a percent sign and a question mark. -/
theorem generateQRCode_content_witness :
    qrContent (str "My App%s?x=1") (str "GEZDGNBVGY3TQOJQ")
        = str "otpauth://totp/My App%s?x=1?secret=GEZDGNBVGY3TQOJQ"
      ∧ GenerateQRCode echoLib (str "My App%s?x=1") (str "GEZDGNBVGY3TQOJQ")
        = .ok (str "otpauth://totp/My App%s?x=1?secret=GEZDGNBVGY3TQOJQ")
      ∧ qrContent (str "My App%s?x=1") (str "GEZDGNBVGY3TQOJQ")
        = str "otpauth://totp/" ++ str "My App%s?x=1" ++ str "?secret="
            ++ str "GEZDGNBVGY3TQOJQ" :=
  ⟨by decide, by decide,
    (generateQRCode_content (str "My App%s?x=1") (str "GEZDGNBVGY3TQOJQ")).2.1⟩


/-! ## Lemmas: the window of `VerifyCode` over counters -/

theorem codeAt_mod (p : Platform) (ga : GoogleAuthenticator) (secret : Bytes) (a b : Int)
    (h : a % 2 ^ 64 = b % 2 ^ 64) : codeAt p ga secret a = codeAt p ga secret b := by
  unfold codeAt
  rw [h]

theorem GetCode_wrap (p : Platform) (ga : GoogleAuthenticator) (now : Int) (secret : Bytes)
    (x : Int) (h1 : -2 ^ 64 < x) (h2 : x < 2 ^ 64) :
    (GetCode p ga (fun _ => now) secret (wrap64 x)).1
      = codeAt p ga secret (if x = 0 then Int.tdiv now 30 else x) := by
  rw [GetCode_codeAt]
  by_cases hx : x = 0
  · subst hx
    simp [orNow, wrap64]
  · have hw : wrap64 x ≠ 0 := by
      unfold wrap64
      omega
    rw [orNow_ne _ _ hw, if_neg hx]
    apply codeAt_mod
    unfold wrap64
    omega

/-! ## C17 -/

/-- C17, amended: with codeLength 6, the clock held at `now`, a nonzero
time step `t` and a discrepancy `0 <= d < 2^63 - 1`, `VerifyCode` returns within
`2d + 1` iterations, and returns true if and only if the candidate is the code of
some counter `c` in `[t - d, t + d]`, where the counter 0 is replaced by the
current time step `now / 30` and every other counter is used as itself. -/
theorem verifyCode_counters (p : Platform) (hp : p.WellFormed) (now : Int)
    (secret code : Bytes) (d t : Int) (ht : t ≠ 0) (ht64 : isInt64 t) (hd0 : 0 ≤ d)
    (hd : d < 2 ^ 63 - 1) (fuel : Nat) (hfuel : 2 * d + 1 ≤ fuel) :
    ((VerifyCode p (NewGoogleAuthenticator 6) fuel (fun _ => now) secret code d t).1
        = .returns true
      ∧ ∃ c : Int, t - d ≤ c ∧ c ≤ t + d ∧
          codeAt p (NewGoogleAuthenticator 6) secret (if c = 0 then Int.tdiv now 30 else c)
            = .ok code)
    ∨ ((VerifyCode p (NewGoogleAuthenticator 6) fuel (fun _ => now) secret code d t).1
        = .returns false
      ∧ ¬ ∃ c : Int, t - d ≤ c ∧ c ≤ t + d ∧
          codeAt p (NewGoogleAuthenticator 6) secret (if c = 0 then Int.tdiv now 30 else c)
            = .ok code) := by
  unfold isInt64 at ht64
  have hiff : (∃ j : Int, -d ≤ j ∧ j ≤ d ∧
        (GetCode p (NewGoogleAuthenticator 6) (fun _ => now) secret (wrap64 (t + j))).1
          = .ok code)
      ↔ ∃ c : Int, t - d ≤ c ∧ c ≤ t + d ∧
          codeAt p (NewGoogleAuthenticator 6) secret (if c = 0 then Int.tdiv now 30 else c)
            = .ok code := by
    constructor
    · rintro ⟨j, h1, h2, h3⟩
      rw [GetCode_wrap p _ now secret (t + j) (by omega) (by omega)] at h3
      exact ⟨t + j, by omega, by omega, h3⟩
    · rintro ⟨c, h1, h2, h3⟩
      refine ⟨c - t, by omega, by omega, ?_⟩
      rw [GetCode_wrap p _ now secret (t + (c - t)) (by omega) (by omega)]
      have : t + (c - t) = c := by ring
      rw [this]
      exact h3
  by_cases hlen : code.length = 6
  · have hneg : wrap64 (-d) = -d := by
      apply wrap64_id
      unfold isInt64
      omega
    have hscan := verifyLoop_scan p hp now secret code d t hd fuel (-d) (by omega) (by omega)
    rw [hiff] at hscan
    simpa only [VerifyCode, hlen, ne_eq, not_true_eq_false, if_false, orNow_ne _ t ht, hneg]
      using hscan
  · right
    refine ⟨by simp [VerifyCode, hlen], ?_⟩
    rw [← hiff]
    rintro ⟨i, _, _, hi⟩
    rcases GetCode_six p hp (fun _ => now) secret (wrap64 (t + i)) with ⟨e, he⟩ | ⟨m, _, hm⟩
    · rw [he] at hi; cases hi
    · rw [hm] at hi
      injection hi with hi
      exact hlen (by rw [← hi]; rfl)

/-- C17, amended, at the secret of RFC 4226 appendix D with `t = 5`, `d = 1`:
the code of counter 4 is accepted. -/
theorem verifyCode_counters_witness :
    refPlatform.WellFormed ∧ (5 : Int) ≠ 0 ∧ isInt64 5 ∧ (0 : Int) ≤ 1
      ∧ (1 : Int) < 2 ^ 63 - 1 ∧ (2 * (1 : Int) + 1 ≤ (3 : Nat))
      ∧ codeAt refPlatform (NewGoogleAuthenticator 6) rfcSecret 4 = .ok (str "338314")
      ∧ (((VerifyCode refPlatform (NewGoogleAuthenticator 6) 3 (fun _ => 1700000000)
              rfcSecret (str "338314") 1 5).1 = .returns true
          ∧ ∃ c : Int, 5 - 1 ≤ c ∧ c ≤ 5 + 1 ∧
              codeAt refPlatform (NewGoogleAuthenticator 6) rfcSecret
                (if c = 0 then Int.tdiv 1700000000 30 else c) = .ok (str "338314"))
        ∨ ((VerifyCode refPlatform (NewGoogleAuthenticator 6) 3 (fun _ => 1700000000)
              rfcSecret (str "338314") 1 5).1 = .returns false
          ∧ ¬ ∃ c : Int, 5 - 1 ≤ c ∧ c ≤ 5 + 1 ∧
              codeAt refPlatform (NewGoogleAuthenticator 6) rfcSecret
                (if c = 0 then Int.tdiv 1700000000 30 else c) = .ok (str "338314"))) :=
  ⟨refPlatform_wf, by decide, by decide, by decide, by decide, by decide, by decide,
    verifyCode_counters refPlatform refPlatform_wf 1700000000 rfcSecret (str "338314") 1 5
      (by decide) (by decide) (by decide) (by decide) 3 (by decide)⟩

/-- C17 as stated fails when the counter 0 lies in the window: with `t = 1`,
`d = 1` and the clock at 1700000000 the range is `[0, 2]`, the code of counter 0
for the secret of RFC 4226 appendix D is `755224`, and `VerifyCode` rejects it,
because the attempt at counter 0 computes the code of the counter 56666666. -/
theorem verifyCode_counters_counterexample :
    Base32Decode refPlatform.unicodeUpper rfcSecret = .ok rfcKey
      ∧ (str "755224").length = 6
      ∧ ((1 : Int) - 1 ≤ 0 ∧ (0 : Int) ≤ 1 + 1)
      ∧ codeAt refPlatform (NewGoogleAuthenticator 6) rfcSecret 0 = .ok (str "755224")
      ∧ (VerifyCode refPlatform (NewGoogleAuthenticator 6) 3 (fun _ => 1700000000)
            rfcSecret (str "755224") 1 1).1 = .returns false
      ∧ (GetCode refPlatform (NewGoogleAuthenticator 6) (fun _ => 1700000000)
            rfcSecret (wrap64 (1 + -1))).1
          = codeAt refPlatform (NewGoogleAuthenticator 6) rfcSecret 56666666 := by
  refine ⟨by decide, by decide, by decide, by decide, by decide, ?_⟩
  rw [GetCode_codeAt]
  rfl

/-! ## Lemmas: `VerifyCode` on a secret that does not decode -/

theorem verifyLoop_rejected (p : Platform) (ga : GoogleAuthenticator) (secret code : Bytes)
    (e : Int) (hrej : Base32Decode p.unicodeUpper secret = .error e) (d cur : Int)
    (hd : d < 2 ^ 63 - 1) :
    ∀ (fuel : Nat) (i : Int) (clk : Clock), -2 ^ 63 ≤ i → d + 1 - i ≤ fuel →
      (verifyLoop p ga secret code d cur fuel i clk).1 = .returns false := by
  intro fuel
  induction fuel with
  | zero =>
    intro i clk _ hf
    rw [verifyLoop_zero p ga secret code d cur i clk (by omega)]
  | succ f ih =>
    intro i clk hi hf
    by_cases h : i ≤ d
    · have hw : wrap64 (i + 1) = i + 1 := by
        apply wrap64_id
        unfold isInt64
        omega
      rw [verifyLoop_err p ga secret code d cur i clk _ f e h
        (GetCode_err p ga clk secret e hrej _), hw]
      exact ih (i + 1) _ (by omega) (by push_cast at hf; omega)
    · rw [verifyLoop_zero p ga secret code d cur i clk (by omega)]

theorem verifyLoop_rejected_forever (p : Platform) (ga : GoogleAuthenticator)
    (secret code : Bytes) (e : Int) (hrej : Base32Decode p.unicodeUpper secret = .error e)
    (cur : Int) :
    ∀ (fuel : Nat) (i : Int) (clk : Clock), i ≤ 2 ^ 63 - 1 →
      (verifyLoop p ga secret code (2 ^ 63 - 1) cur fuel i clk).1 = .running := by
  intro fuel
  induction fuel with
  | zero =>
    intro i clk hi
    have hi' : i ≤ 9223372036854775807 := by omega
    simp [verifyLoop, hi']
  | succ f ih =>
    intro i clk hi
    rw [verifyLoop_err p ga secret code (2 ^ 63 - 1) cur i clk _ f e hi
      (GetCode_err p ga clk secret e hrej _)]
    apply ih
    unfold wrap64
    omega

/-! ## C18 -/

/-- C18, amended: for a secret that `Base32Decode` rejects, every
authenticator, candidate code, time step and clock, and every discrepancy
`d < 2^63 - 1`, every attempt of `VerifyCode` is skipped and the call returns
false, without error or panic, within `max 1 (2d + 1)` iterations. -/
theorem verifyCode_rejected_secret (p : Platform) (ga : GoogleAuthenticator) (clk : Clock)
    (secret code : Bytes) (e : Int) (hrej : Base32Decode p.unicodeUpper secret = .error e)
    (d t : Int) (hdmin : -2 ^ 63 ≤ d) (hd : d < 2 ^ 63 - 1) (fuel : Nat)
    (hfuel : 2 * d + 1 ≤ fuel) (hfuel1 : 1 ≤ fuel) :
    (VerifyCode p ga fuel clk secret code d t).1 = .returns false := by
  by_cases hlen : code.length = 6
  · simp only [VerifyCode, hlen, ne_eq, not_true_eq_false, if_false]
    apply verifyLoop_rejected p ga secret code e hrej d _ hd
    · unfold wrap64
      omega
    · unfold wrap64
      omega
  · simp [VerifyCode, hlen]

/-- C18, amended, at `JBSWY3DPEHPK3PX1` with discrepancy 1 and codeLength -1. -/
theorem verifyCode_rejected_secret_witness :
    Base32Decode refPlatform.unicodeUpper (str "JBSWY3DPEHPK3PX1") = .error 15
      ∧ (-2 ^ 63 : Int) ≤ 1 ∧ (1 : Int) < 2 ^ 63 - 1 ∧ (2 * (1 : Int) + 1 ≤ (3 : Nat))
      ∧ 1 ≤ 3
      ∧ (VerifyCode refPlatform (NewGoogleAuthenticator (-1)) 3 (fun _ => 1700000000)
          (str "JBSWY3DPEHPK3PX1") (str "287082") 1 0).1 = .returns false :=
  ⟨by decide, by decide, by decide, by decide, by decide,
    verifyCode_rejected_secret refPlatform (NewGoogleAuthenticator (-1)) (fun _ => 1700000000)
      (str "JBSWY3DPEHPK3PX1") (str "287082") 15 (by decide) 1 0 (by decide) (by decide) 3
      (by decide) (by decide)⟩

/-- C18 as stated fails at `d = 2^63 - 1`: the test `i <= d` never fails, and
on a rejected secret no attempt matches, so however many iterations are allowed
the loop is still running and `VerifyCode` never returns false. -/
theorem verifyCode_rejected_secret_counterexample :
    Base32Decode refPlatform.unicodeUpper (str "JBSWY3DPEHPK3PX1") = .error 15
      ∧ (∀ fuel : Nat,
          (VerifyCode refPlatform (NewGoogleAuthenticator 6) fuel (fun _ => 1700000000)
            (str "JBSWY3DPEHPK3PX1") (str "287082") (2 ^ 63 - 1) 1).1 = .running)
      ∧ ¬ ∃ fuel : Nat,
          (VerifyCode refPlatform (NewGoogleAuthenticator 6) fuel (fun _ => 1700000000)
            (str "JBSWY3DPEHPK3PX1") (str "287082") (2 ^ 63 - 1) 1).1 = .returns false := by
  have hrej : Base32Decode refPlatform.unicodeUpper (str "JBSWY3DPEHPK3PX1") = .error 15 := by
    decide
  have hrun : ∀ fuel : Nat,
      (VerifyCode refPlatform (NewGoogleAuthenticator 6) fuel (fun _ => 1700000000)
        (str "JBSWY3DPEHPK3PX1") (str "287082") (2 ^ 63 - 1) 1).1 = .running := by
    intro fuel
    have hlen : (str "287082").length = 6 := by decide
    simp only [VerifyCode, hlen, ne_eq, not_true_eq_false, if_false]
    apply verifyLoop_rejected_forever refPlatform _ _ _ 15 hrej
    unfold wrap64
    omega
  refine ⟨hrej, hrun, ?_⟩
  rintro ⟨fuel, h⟩
  rw [hrun fuel] at h
  cases h


/-! ## Lemmas: `src/mian.go` against `src/auth.go` -/

theorem mian_GetCode_eq (p : Platform) (ga : GoogleAuthenticator) (clk : Clock)
    (secret : Bytes) (t : Int) :
    Mian.GetCode p ga clk secret t = GetCode p ga clk secret t := by
  simp only [Mian.GetCode, GetCode, Mian.base32Decode, Base32Decode, truncate, truncValue,
    dynOffset]
  cases DecodeString (ToUpper p.unicodeUpper (TrimRight secret)) with
  | error e => rfl
  | ok key =>
    simp only []
    split_ifs <;> rfl

theorem mian_timingSafeEquals_empty (code : Bytes) (h : code.length = 6) :
    Mian.timingSafeEquals [] code = false := by
  simp [Mian.timingSafeEquals, h]

theorem mian_verifyLoop_eq (p : Platform) (ga : GoogleAuthenticator) (secret code : Bytes)
    (d cur : Int) (hlen : code.length = 6) :
    ∀ (fuel : Nat) (i : Int) (clk : Clock),
      Mian.verifyLoop p ga secret code d cur fuel i clk
        = verifyLoop p ga secret code d cur fuel i clk := by
  intro fuel
  induction fuel with
  | zero =>
    intro i clk
    rfl
  | succ f ih =>
    intro i clk
    simp only [Mian.verifyLoop, verifyLoop, mian_GetCode_eq,
      mian_timingSafeEquals_empty code hlen, Bool.false_eq_true, if_false]
    split_ifs with h
    · rcases hg : GetCode p ga clk secret (wrap64 (cur + i)) with ⟨r, clk'⟩
      cases r with
      | ok c =>
        simp only []
        have : Mian.timingSafeEquals c code = TimingSafeEquals c code :=
          (TimingSafeEquals_eq c code).symm
        rw [this, ih]
      | err e =>
        simp only []
        rw [ih]
      | panic => rfl
    · rfl

/-! ## C19 -/

/-- C19: for a digest of 20 bytes the offset `digest[19] & 0x0F` is at most
15, the slice `digest[offset : offset+4]` has its four bytes inside the digest
(`offset + 4 <= 19 < 20`), the masked value lies in `[0, 2^31 - 1]` and its
conversion to `int32` keeps it; the truncation panics only on a zero modulus, in
`src/auth.go` and in `src/mian.go`. -/
theorem truncation_in_bounds (p : Platform) (ga : GoogleAuthenticator) (h : Bytes)
    (hl : h.length = 20) :
    dynOffset h = h.getD 19 0 &&& 0x0F
      ∧ dynOffset h ≤ 15
      ∧ dynOffset h + 4 ≤ 19
      ∧ ((h.drop (dynOffset h)).take 4).length = 4
      ∧ (∀ k, k < 4 → dynOffset h + k < h.length
          ∧ ((h.drop (dynOffset h)).take 4).getD k 0 = h.getD (dynOffset h + k) 0)
      ∧ Uint32 ((h.drop (dynOffset h)).take 4) &&& 0x7FFFFFFF ≤ 2 ^ 31 - 1
      ∧ truncValue h = ((Uint32 ((h.drop (dynOffset h)).take 4) &&& 0x7FFFFFFF : Nat) : Int)
      ∧ (0 ≤ truncValue h ∧ truncValue h ≤ 2 ^ 31 - 1)
      ∧ (truncate p ga h = .panic ↔ modulo p ga.codeLength = 0)
      ∧ (∀ (clk : Clock) (secret : Bytes) (t : Int), p.WellFormed →
          modulo p ga.codeLength ≠ 0 →
          (GetCode p ga clk secret t).1 ≠ .panic
            ∧ (Mian.GetCode p ga clk secret t).1 ≠ .panic) := by
  have ho := dynOffset_le h
  have hm := mask_lt (Uint32 ((h.drop (dynOffset h)).take 4))
  have hr := truncValue_range h
  have hpanic : ∀ d : Bytes, d.length = 20 →
      (truncate p ga d = .panic ↔ modulo p ga.codeLength = 0) := by
    intro d hd
    have hdo := dynOffset_le d
    have h1 : ¬ d.length = 0 := by omega
    have h2 : ¬ d.length < dynOffset d + 4 := by omega
    simp only [truncate, h1, h2, if_false]
    split_ifs with h3
    · simp [h3]
    · simp [h3]
  refine ⟨by simp [dynOffset, hl], ho, by omega, by simp [hl]; omega, ?_, by omega,
    truncValue_nat h, ⟨hr.1, by omega⟩, hpanic h hl, ?_⟩
  · intro k hk
    refine ⟨by omega, ?_⟩
    simp [List.getD_eq_getElem?_getD, List.getElem?_take, hk]
  · intro clk secret t hp hmod
    have hg : (GetCode p ga clk secret t).1 ≠ .panic := by
      rw [GetCode_codeAt]
      unfold codeAt
      cases Base32Decode p.unicodeUpper secret with
      | error e => intro hx; cases hx
      | ok key =>
        intro hx
        exact hmod ((hpanic _ (hp key _).1).1 hx)
    exact ⟨hg, by rw [mian_GetCode_eq]; exact hg⟩

/-- C19, at the digest of RFC 4226 section 5.4: offset 10, bytes 10 to 13. -/
theorem truncation_in_bounds_witness :
    rfcDigest.length = 20
      ∧ dynOffset rfcDigest = 10
      ∧ (rfcDigest.drop 10).take 4 = [0x50, 0xef, 0x7f, 0x19]
      ∧ truncValue rfcDigest = 0x50ef7f19
      ∧ dynOffset rfcDigest + 4 ≤ 19 :=
  ⟨by decide, by decide, by decide, by decide,
    (truncation_in_bounds refPlatform (NewGoogleAuthenticator 6) rfcDigest (by decide)).2.2.1⟩

/-! ## C20 -/

/-- C20: for every platform, secret, candidate code, discrepancy, time step,
clock and number of iterations allowed, `VerifyCode` of `src/mian.go`, with its
code length of 6, stands exactly where `VerifyCode` of `src/auth.go` with
codeLength 6 stands (the same boolean, the same panic, or both still running,
with the same clock left); and `GetCode`, the base32 decoding and the
timing-safe comparison of the two files return equal results on equal inputs. -/
theorem mian_agrees_with_auth (p : Platform) (fuel : Nat) (clk : Clock)
    (secret code a b : Bytes) (d t : Int) :
    Mian.VerifyCode p Mian.NewGoogleAuthenticator fuel clk secret code d t
        = VerifyCode p (NewGoogleAuthenticator 6) fuel clk secret code d t
      ∧ Mian.GetCode p Mian.NewGoogleAuthenticator clk secret t
        = GetCode p (NewGoogleAuthenticator 6) clk secret t
      ∧ Mian.base32Decode p.unicodeUpper secret = Base32Decode p.unicodeUpper secret
      ∧ Mian.timingSafeEquals a b = TimingSafeEquals a b := by
  refine ⟨?_, mian_GetCode_eq p _ clk secret t, rfl, (TimingSafeEquals_eq a b).symm⟩
  by_cases hlen : code.length = 6
  · simp only [Mian.VerifyCode, VerifyCode, hlen, ne_eq, not_true_eq_false, if_false]
    exact mian_verifyLoop_eq p _ secret code d _ hlen fuel _ _
  · simp [Mian.VerifyCode, VerifyCode, hlen]

/-- C20, on a secret that does not decode, where `src/mian.go` compares the
empty string with the candidate and `src/auth.go` skips the attempt: both
return false. -/
theorem mian_agrees_with_auth_witness :
    (Mian.VerifyCode refPlatform Mian.NewGoogleAuthenticator 3 (fun _ => 0)
        (str "JBSWY3DPEHPK3PX1") (str "287082") 1 5).1 = .returns false
      ∧ (VerifyCode refPlatform (NewGoogleAuthenticator 6) 3 (fun _ => 0)
        (str "JBSWY3DPEHPK3PX1") (str "287082") 1 5).1 = .returns false
      ∧ Mian.VerifyCode refPlatform Mian.NewGoogleAuthenticator 3 (fun _ => 0)
          (str "JBSWY3DPEHPK3PX1") (str "287082") 1 5
        = VerifyCode refPlatform (NewGoogleAuthenticator 6) 3 (fun _ => 0)
          (str "JBSWY3DPEHPK3PX1") (str "287082") 1 5 :=
  ⟨by decide, by decide,
    (mian_agrees_with_auth refPlatform 3 (fun _ => 0) (str "JBSWY3DPEHPK3PX1") (str "287082")
      [] [] 1 5).1⟩

end Totp
